import Mathlib

/-!
Verification of the scraping/ingestion engine of the `scrapping` repository.

The Python source under `apprenticeship/` and `job/` is shallowly embedded:
pure string manipulation becomes Lean functions on `String`/`List Char`,
the Django ORM store becomes an explicit `String → Option Entity` map,
HTML documents become an `HNode` tree, HTTP fetching becomes a finite
association list from URLs to documents, and fallible external calls
(detail scrape, image generation) become `Except`-valued oracles.
-/

set_option maxHeartbeats 1000000

/-! ## Python string primitives

Models of the Python string operations used by the scrapers.  Python operates
on code points, so positional operations go through `List Char`. -/

/-- Python's `\s` character class (ASCII part): space, tab, newline, carriage
return, vertical tab, form feed. -/
def pyIsSpace (c : Char) : Bool :=
  c = ' ' || c = '\t' || c = '\n' || c = '\r' || c = '\x0b' || c = '\x0c'

/-- Python `str.strip()` on a list of characters. -/
def stripChars (l : List Char) : List Char :=
  ((l.dropWhile pyIsSpace).reverse.dropWhile pyIsSpace).reverse

/-- Python `str.strip()`. -/
def pyStrip (s : String) : String :=
  (stripChars s.toList).asString

/-- Python `str.lower()` (ASCII case folding, enough for the scraper data). -/
def pyLower (s : String) : String :=
  (s.toList.map Char.toLower).asString

/-- Python `s[:n]` (slice by code points), used by the Django field truncation
such as `(data.get("title") or "")[:500]`. -/
def pyTake (n : Nat) (s : String) : String :=
  (s.toList.take n).asString

/-- Python `s[n:]` (slice by code points). -/
def pyDrop (n : Nat) (s : String) : String :=
  (s.toList.drop n).asString

/-- Python `len(s)` (code points). -/
def pyLen (s : String) : Nat :=
  s.toList.length

/-- Maximal non-whitespace runs of a character list (Python `s.split()`). -/
def wordsAux : List Char → List Char → List (List Char)
  | [], cur => if cur = [] then [] else [cur.reverse]
  | c :: rest, cur =>
      if pyIsSpace c then
        if cur = [] then wordsAux rest [] else cur.reverse :: wordsAux rest []
      else wordsAux rest (c :: cur)

/-- Python `s.split()` (split on whitespace runs, no empties). -/
def pyWords (s : String) : List String :=
  (wordsAux s.toList []).map List.asString

/-- `clean(s)` from both scrapper modules:
`re.sub(r"\s+", " ", (s or "").strip())` — collapse whitespace runs into a
single space and strip the ends. -/
def clean (s : String) : String :=
  String.intercalate " " (pyWords s)

/-- Python truthiness of a string: non-empty. -/
def pyTruthy (s : String) : Bool := s ≠ ""

/-! ## The emptyish placeholder policy (merge engine)

`_is_emptyish` from `apprenticeship/management/commands/scrape_apprenticeship.py`. -/

/-- The fixed placeholder vocabulary of `_is_emptyish`. -/
def placeholderVocab : List String :=
  ["-", "—", "n/a", "na", "not available", "not applicable",
   "tbc", "to be confirmed", "competitive"]

/-- `_is_emptyish(val)`: trimmed-lowercased value is empty or a placeholder. -/
def is_emptyish (val : String) : Bool :=
  let v := pyLower (pyStrip val)
  if v = "" then true else placeholderVocab.contains v

/-! ## Field maps and function update

Dictionaries (`details`, `merged`, Django model rows accessed through
`getattr`/`setattr`) are modelled as total maps `String → String`;
missing keys read as `""`, matching `dict.get(k, "")` and the models'
`default=""` columns. -/

/-- `setattr`/`d[k] = v` as function update. -/
def setField (c : String → String) (k v : String) : String → String :=
  fun f => if f = k then v else c f

/-- First value for a key in an association list (Python `dict` built from
distinct keys). -/
def lookupD (l : List (String × String)) (k : String) (dflt : String) : String :=
  match l.find? (fun p => p.1 = k) with
  | some p => p.2
  | none => dflt

/-! ## Listing stubs (the `ListedVacancy` / `ListedJob` dataclasses) -/

/-- `ListedVacancy` from `apprenticeship/scrapper/ncs.py`. -/
structure ListedVacancy where
  vacancy_ref : String
  url : String
  title : String := ""
  employer_name : String := ""
  location_summary : String := ""
  start_date : String := ""
  training_course : String := ""
  wage : String := ""
  closing_text : String := ""
  posted_text : String := ""
deriving DecidableEq, Repr

/-- `ListedJob` from `job/scrapper/ncs.py` (the fields the command consumes). -/
structure ListedJob where
  job_id : String
  url : String
  title : String := ""
  posting_date : String := ""
  company : String := ""
  location : String := ""
  salary : String := ""
  remote_working : String := ""
  job_type : String := ""
  hours : String := ""
  listing_snippet : String := ""
deriving DecidableEq, Repr

/-! ## Merge engine

Apprenticeship: the eight `if _is_emptyish(details.get(f, "")) and listed.f:`
statements of `Command._process_one`.
Job: the `fill_if_empty` closure plus the snippet/url/category assignments of
`Command.handle`. -/

/-- One apprenticeship merge step: replace the detail value by the listing
value when the detail value is emptyish and the listing value truthy. -/
def mergeStep (d : String → String) (key lv : String) : String → String :=
  if is_emptyish (d key) ∧ pyTruthy lv then setField d key lv else d

/-- The merge block of `Command._process_one` (apprenticeship): listing used
as fallback for eight fields. -/
def appMergeDetails (details : String → String) (listed : ListedVacancy) :
    String → String :=
  let d := mergeStep details "title" listed.title
  let d := mergeStep d "employer_name" listed.employer_name
  let d := mergeStep d "location_summary" listed.location_summary
  let d := mergeStep d "closing_text" listed.closing_text
  let d := mergeStep d "posted_text" listed.posted_text
  let d := mergeStep d "start_date" listed.start_date
  let d := mergeStep d "training_course" listed.training_course
  let d := mergeStep d "wage" listed.wage
  d

/-- `fill_if_empty(k, v)` from the job command: fill only when the merged
value is `""` (or `None`, which does not occur for these string fields). -/
def fill_if_empty (m : String → String) (k v : String) : String → String :=
  if m k = "" then setField m k v else m

/-- Construction of `merged` in the job command: copy of `details`, eight
`fill_if_empty` calls, optional snippet override, then url/category/
subcategory assignments. -/
def jobBuildMerged (details : String → String) (listed : ListedJob)
    (category subcategory : String) : String → String :=
  let m := details
  let m := fill_if_empty m "title" listed.title
  let m := fill_if_empty m "posting_date" listed.posting_date
  let m := fill_if_empty m "company" listed.company
  let m := fill_if_empty m "location" listed.location
  let m := fill_if_empty m "salary" listed.salary
  let m := fill_if_empty m "remote_working" listed.remote_working
  let m := fill_if_empty m "job_type" listed.job_type
  let m := fill_if_empty m "hours" listed.hours
  let m := if pyTruthy listed.listing_snippet then
      setField m "listing_snippet" listed.listing_snippet else m
  let m := setField m "job_url" listed.url
  let m := setField m "category" category
  let m := setField m "subcategory" subcategory
  m

/-- Field-name → listing-stub value, for the eight apprenticeship merge
fields. -/
def listedVacancyGet (l : ListedVacancy) : String → String :=
  fun f =>
    if f = "title" then l.title
    else if f = "employer_name" then l.employer_name
    else if f = "location_summary" then l.location_summary
    else if f = "closing_text" then l.closing_text
    else if f = "posted_text" then l.posted_text
    else if f = "start_date" then l.start_date
    else if f = "training_course" then l.training_course
    else if f = "wage" then l.wage
    else ""

/-- Field-name → listing-stub value, for the eight job fill fields. -/
def listedJobGet (l : ListedJob) : String → String :=
  fun f =>
    if f = "title" then l.title
    else if f = "posting_date" then l.posting_date
    else if f = "company" then l.company
    else if f = "location" then l.location
    else if f = "salary" then l.salary
    else if f = "remote_working" then l.remote_working
    else if f = "job_type" then l.job_type
    else if f = "hours" then l.hours
    else ""

/-- The eight fields merged from the listing stub (apprenticeship). -/
def appMergeFields : List String :=
  ["title", "employer_name", "location_summary", "closing_text",
   "posted_text", "start_date", "training_course", "wage"]

/-- The eight fields filled from the listing stub (job). -/
def jobFillFields : List String :=
  ["title", "posting_date", "company", "location", "salary",
   "remote_working", "job_type", "hours"]

example : is_emptyish "-" = true := by decide
example : is_emptyish " " = true := by decide
example : is_emptyish "n/a" = true := by decide
example : is_emptyish "TBC" = true := by decide
example : is_emptyish "N/A fee" = false := by decide
example : clean "  Wage:   £6.40 an hour " = "Wage: £6.40 an hour" := by decide

/-! ## Ingestion store entities

`ApprenticeshipVacancy` / `DwpJob` rows.  All content columns (including
`category`/`subcategory`/`image_url`) are read and written through
`getattr`/`setattr`, so they are modelled as one total map `content`;
unsupplied columns default to `""` (every content column has
`default=""` in `models.py`).  Timestamps and run ids are opaque `Nat`s. -/

structure AppEntity where
  content : String → String
  last_checked_at : Nat
  last_scrape_run_id : Nat
  last_scrape_status : String
  last_scrape_message : String

/-- Result of one upsert: the returned status/message, the Python
`changed_fields` list, and the saved row. -/
structure UpsertResult where
  status : String
  message : String
  changed : List String
  entity : AppEntity

/-- `store[ref] := e`. -/
def updateStore (store : String → Option AppEntity) (ref : String)
    (e : AppEntity) : String → Option AppEntity :=
  fun r => if r = ref then some e else store r

/-- The `setattr`-if-different loop shared by both commands:
`if getattr(obj, field) != val: setattr(obj, field, val); changed.append(field)`. -/
def applyDiff : (String → String) → List (String × String) →
    ((String → String) × List String)
  | c, [] => (c, [])
  | c, (k, v) :: rest =>
      if c k = v then applyDiff c rest
      else
        let r := applyDiff (setField c k v) rest
        (r.1, k :: r.2)

/-- `new_vals` of `Command._upsert_smart` (apprenticeship), minus the two
metadata entries `last_checked_at`/`last_scrape_run_id`, which are skipped
by the diff loop and handled separately; `category`/`subcategory` are added
when truthy, in insertion order. -/
def appNewVals (vacancy_url : String) (data : String → String)
    (category subcategory : String) : List (String × String) :=
  [("vacancy_url", pyTake 1000 vacancy_url),
   ("title", pyTake 500 (data "title")),
   ("employer_name", pyTake 500 (data "employer_name")),
   ("location_summary", pyTake 255 (data "location_summary")),
   ("closing_text", pyTake 255 (data "closing_text")),
   ("posted_text", pyTake 255 (data "posted_text")),
   ("summary_text", data "summary_text"),
   ("wage", pyTake 255 (data "wage")),
   ("wage_extra", data "wage_extra"),
   ("training_course", pyTake 500 (data "training_course")),
   ("hours", pyTake 500 (data "hours")),
   ("hours_per_week", pyTake 64 (data "hours_per_week")),
   ("start_date", pyTake 255 (data "start_date")),
   ("duration", pyTake 255 (data "duration")),
   ("positions_available", pyTake 64 (data "positions_available")),
   ("work_intro", data "work_intro"),
   ("what_youll_do_heading", pyTake 255 (data "what_youll_do_heading")),
   ("what_youll_do_items", data "what_youll_do_items"),
   ("where_youll_work_name", pyTake 500 (data "where_youll_work_name")),
   ("where_youll_work_address", data "where_youll_work_address"),
   ("training_intro", data "training_intro"),
   ("training_provider", pyTake 500 (data "training_provider")),
   ("training_course_repeat", pyTake 500 (data "training_course_repeat")),
   ("what_youll_learn_items", data "what_youll_learn_items"),
   ("training_schedule", data "training_schedule"),
   ("more_training_information", data "more_training_information"),
   ("essential_qualifications", data "essential_qualifications"),
   ("skills_items", data "skills_items"),
   ("other_requirements_items", data "other_requirements_items"),
   ("about_employer", data "about_employer"),
   ("employer_website", pyTake 1000 (data "employer_website")),
   ("company_benefits_items", data "company_benefits_items"),
   ("after_this_apprenticeship", data "after_this_apprenticeship"),
   ("contact_name", pyTake 500 (data "contact_name"))]
  ++ (if category ≠ "" then [("category", pyTake 255 category)] else [])
  ++ (if subcategory ≠ "" then [("subcategory", pyTake 255 subcategory)] else [])

/-- The two back-fill statements shared by both commands
(`if category and not (obj.category or "").strip(): ...` followed by the
same for `subcategory`); `tr` is the value transform applied on assignment
(`[:255]` truncation in the apprenticeship command, identity in the job
command). -/
def backfillPair (tr : String → String) (c0 : String → String)
    (category subcategory : String) : (String → String) × List String :=
  let bc := if category ≠ "" ∧ pyStrip (c0 "category") = "" then
      (setField c0 "category" (tr category), ["category"])
    else (c0, ([] : List String))
  if subcategory ≠ "" ∧ pyStrip (bc.1 "subcategory") = "" then
    (setField bc.1 "subcategory" (tr subcategory), bc.2 ++ ["subcategory"])
  else bc

/-- `Command._upsert_smart` from `scrape_apprenticeship.py`. -/
def app_upsert_smart (store : String → Option AppEntity)
    (vacancy_ref vacancy_url : String) (data : String → String)
    (category subcategory : String) (run_id now : Nat) : UpsertResult :=
  let nv := appNewVals vacancy_url data category subcategory
  match store vacancy_ref with
  | none =>
      { status := "created", message := "", changed := [],
        entity :=
          { content := fun f => lookupD nv f "",
            last_checked_at := now, last_scrape_run_id := run_id,
            last_scrape_status := "created", last_scrape_message := "" } }
  | some obj =>
      let bs := backfillPair (pyTake 255) obj.content category subcategory
      let r := applyDiff bs.1 nv
      let changed := bs.2 ++ r.2
      if changed = [] then
        { status := "skipped", message := "", changed := [],
          entity :=
            { content := r.1, last_checked_at := now,
              last_scrape_run_id := run_id,
              last_scrape_status := "skipped", last_scrape_message := "" } }
      else
        let msg := "changed_fields=" ++ String.intercalate "," changed
        { status := "updated", message := msg, changed := changed,
          entity :=
            { content := r.1, last_checked_at := now,
              last_scrape_run_id := run_id,
              last_scrape_status := "updated", last_scrape_message := msg } }

/-- The job command's diff loop skips `category`/`subcategory`
(`if k in ("category", "subcategory"): continue`). -/
def jobDiffList (safe_vals : List (String × String)) : List (String × String) :=
  safe_vals.filter (fun p => !(p.1 == "category" || p.1 == "subcategory"))

/-- The inline upsert of `scrape_job.py` `Command.handle` (get_or_create,
back-fill, diff loop, image assignment, status determination, save).
`img` is the URL produced by a successful image generation, `none` when
generation is skipped, not reached, or raised. -/
def jobUpsertCore (store : String → Option AppEntity) (job_id : String)
    (safe_vals : List (String × String)) (category subcategory : String)
    (img : Option String) (run_id now : Nat) : UpsertResult :=
  match store job_id with
  | none =>
      let c0 : String → String := fun f => lookupD safe_vals f ""
      let ci := match img with
        | none => (c0, ([] : List String))
        | some u =>
            if u ≠ "" ∧ c0 "image_url" ≠ u then
              (setField c0 "image_url" u, ["image_url"])
            else (c0, [])
      { status := "created", message := "", changed := ci.2,
        entity :=
          { content := ci.1, last_checked_at := now,
            last_scrape_run_id := run_id,
            last_scrape_status := "created", last_scrape_message := "" } }
  | some obj =>
      let bs := backfillPair (fun s => s) obj.content category subcategory
      let r := applyDiff bs.1 (jobDiffList safe_vals)
      let c2 := r.1
      let ch2 := bs.2 ++ r.2
      let ci := match img with
        | none => (c2, ch2)
        | some u =>
            if u ≠ "" ∧ c2 "image_url" ≠ u then
              (setField c2 "image_url" u, ch2 ++ ["image_url"])
            else (c2, ch2)
      let status := if ci.2 = [] then "skipped" else "updated"
      { status := status, message := "", changed := ci.2,
        entity :=
          { content := ci.1, last_checked_at := now,
            last_scrape_run_id := run_id,
            last_scrape_status := status, last_scrape_message := "" } }

/-! ## Lemmas about `setField`, `lookupD` and `applyDiff` -/

theorem setField_same (c : String → String) (k v : String) :
    setField c k v k = v := by
  simp [setField]

theorem setField_ne (c : String → String) (k v f : String) (h : f ≠ k) :
    setField c k v f = c f := by
  simp [setField, h]

theorem lookupD_nil (k d : String) : lookupD [] k d = d := rfl

theorem lookupD_cons (a b k d : String) (l : List (String × String)) :
    lookupD ((a, b) :: l) k d = if a = k then b else lookupD l k d := by
  by_cases h : a = k <;> simp [lookupD, List.find?_cons, h]

theorem lookupD_not_mem {k : String} {l : List (String × String)}
    (h : k ∉ l.map Prod.fst) (d : String) : lookupD l k d = d := by
  induction l with
  | nil => rfl
  | cons p rest ih =>
      obtain ⟨a, b⟩ := p
      simp only [List.map_cons, List.mem_cons] at h
      push_neg at h
      rw [lookupD_cons, if_neg (by exact fun hh => h.1 hh.symm), ih h.2]

theorem lookupD_default_irrel {k : String} {l : List (String × String)}
    (h : k ∈ l.map Prod.fst) (d d' : String) :
    lookupD l k d = lookupD l k d' := by
  induction l with
  | nil => simp at h
  | cons p rest ih =>
      obtain ⟨a, b⟩ := p
      rw [lookupD_cons, lookupD_cons]
      by_cases ha : a = k
      · simp [ha]
      · simp only [if_neg ha]
        simp only [List.map_cons, List.mem_cons] at h
        exact ih (h.resolve_left (fun hh => ha hh.symm))

theorem lookupD_mem {k v : String} {l : List (String × String)}
    (hnd : (l.map Prod.fst).Nodup) (hm : (k, v) ∈ l) (d : String) :
    lookupD l k d = v := by
  induction l with
  | nil => simp at hm
  | cons p rest ih =>
      obtain ⟨a, b⟩ := p
      simp only [List.map_cons, List.nodup_cons] at hnd
      rw [lookupD_cons]
      rcases List.mem_cons.mp hm with h | h
      · obtain ⟨h1, h2⟩ := Prod.mk.injEq .. ▸ h
        simp [h1, h2]
      · have hak : a ≠ k := by
          intro hh
          exact hnd.1 (hh ▸ (List.mem_map.mpr ⟨(k, v), h, rfl⟩))
        rw [if_neg hak]
        exact ih hnd.2 h

theorem applyDiff_fst {nv : List (String × String)}
    (hnd : (nv.map Prod.fst).Nodup) (c : String → String) (f : String) :
    (applyDiff c nv).1 f = lookupD nv f (c f) := by
  induction nv generalizing c with
  | nil => simp [applyDiff, lookupD_nil]
  | cons p rest ih =>
      obtain ⟨k, v⟩ := p
      simp only [List.map_cons, List.nodup_cons] at hnd
      obtain ⟨hk, hrest⟩ := hnd
      by_cases hc : c k = v
      · simp only [applyDiff, if_pos hc]
        rw [ih hrest, lookupD_cons]
        by_cases hkf : k = f
        · subst hkf
          rw [if_pos rfl, lookupD_not_mem hk, hc]
        · rw [if_neg hkf]
      · simp only [applyDiff, if_neg hc]
        rw [ih hrest, lookupD_cons]
        by_cases hkf : k = f
        · subst hkf
          rw [if_pos rfl, setField_same, lookupD_not_mem hk]
        · rw [if_neg hkf, setField_ne _ _ _ _ (fun hh => hkf hh.symm)]

theorem applyDiff_snd_nil_iff (c : String → String)
    (nv : List (String × String)) :
    (applyDiff c nv).2 = [] ↔ ∀ p ∈ nv, c p.1 = p.2 := by
  induction nv generalizing c with
  | nil => simp [applyDiff]
  | cons p rest ih =>
      obtain ⟨k, v⟩ := p
      by_cases hc : c k = v
      · simp only [applyDiff, if_pos hc, List.forall_mem_cons]
        rw [ih c]
        simp [hc]
      · simp only [applyDiff, if_neg hc, List.forall_mem_cons]
        simp [hc]

theorem applyDiff_fst_of_snd_nil {c : String → String}
    {nv : List (String × String)} (h : (applyDiff c nv).2 = []) :
    (applyDiff c nv).1 = c := by
  induction nv generalizing c with
  | nil => simp [applyDiff]
  | cons p rest ih =>
      obtain ⟨k, v⟩ := p
      by_cases hc : c k = v
      · simp only [applyDiff, if_pos hc] at h ⊢
        exact ih h
      · simp only [applyDiff, if_neg hc] at h
        simp at h

/-! ## Key structure of `new_vals` -/

/-- The 34 fixed keys of `new_vals` (diffable content fields). -/
def appBaseKeys : List String :=
  ["vacancy_url", "title", "employer_name", "location_summary",
   "closing_text", "posted_text", "summary_text", "wage", "wage_extra",
   "training_course", "hours", "hours_per_week", "start_date", "duration",
   "positions_available", "work_intro", "what_youll_do_heading",
   "what_youll_do_items", "where_youll_work_name",
   "where_youll_work_address", "training_intro", "training_provider",
   "training_course_repeat", "what_youll_learn_items", "training_schedule",
   "more_training_information", "essential_qualifications", "skills_items",
   "other_requirements_items", "about_employer", "employer_website",
   "company_benefits_items", "after_this_apprenticeship", "contact_name"]

theorem appNewVals_keys (u : String) (d : String → String) (c s : String) :
    (appNewVals u d c s).map Prod.fst
      = appBaseKeys ++ (if c ≠ "" then ["category"] else [])
        ++ (if s ≠ "" then ["subcategory"] else []) := by
  by_cases hc : c = "" <;> by_cases hs : s = "" <;>
    simp [appNewVals, appBaseKeys, hc, hs]

theorem appNewVals_keys_nodup (u : String) (d : String → String)
    (c s : String) : ((appNewVals u d c s).map Prod.fst).Nodup := by
  rw [appNewVals_keys]
  by_cases hc : c = "" <;> by_cases hs : s = "" <;> simp [hc, hs] <;> decide

theorem appNewVals_category_mem (u : String) (d : String → String)
    {c : String} (s : String) (hc : c ≠ "") :
    ("category", pyTake 255 c) ∈ appNewVals u d c s := by
  simp [appNewVals, hc]

theorem appNewVals_subcategory_mem (u : String) (d : String → String)
    (c : String) {s : String} (hs : s ≠ "") :
    ("subcategory", pyTake 255 s) ∈ appNewVals u d c s := by
  simp [appNewVals, hs]

theorem appNewVals_category_key_mem (u : String) (d : String → String)
    {c : String} (s : String) (hc : c ≠ "") :
    "category" ∈ (appNewVals u d c s).map Prod.fst := by
  exact List.mem_map.mpr ⟨_, appNewVals_category_mem u d s hc, rfl⟩

theorem appNewVals_subcategory_key_mem (u : String) (d : String → String)
    (c : String) {s : String} (hs : s ≠ "") :
    "subcategory" ∈ (appNewVals u d c s).map Prod.fst := by
  exact List.mem_map.mpr ⟨_, appNewVals_subcategory_mem u d c hs, rfl⟩

theorem jobDiffList_keys_nodup {sv : List (String × String)}
    (hnd : (sv.map Prod.fst).Nodup) :
    ((jobDiffList sv).map Prod.fst).Nodup := by
  exact List.Nodup.sublist (List.Sublist.map Prod.fst (List.filter_sublist sv)) hnd

theorem jobDiffList_no_category (sv : List (String × String)) :
    "category" ∉ (jobDiffList sv).map Prod.fst := by
  intro h
  obtain ⟨p, hp, hfst⟩ := List.mem_map.mp h
  have := List.of_mem_filter hp
  rw [hfst] at this
  simp at this

theorem jobDiffList_no_subcategory (sv : List (String × String)) :
    "subcategory" ∉ (jobDiffList sv).map Prod.fst := by
  intro h
  obtain ⟨p, hp, hfst⟩ := List.mem_map.mp h
  have := List.of_mem_filter hp
  rw [hfst] at this
  simp at this

/-! ## Lemmas about the back-fill stage -/

theorem backfillPair_of_no_trigger {tr c0 : String → String}
    {category subcategory : String}
    (h1 : ¬(category ≠ "" ∧ pyStrip (c0 "category") = ""))
    (h2 : ¬(subcategory ≠ "" ∧ pyStrip (c0 "subcategory") = "")) :
    backfillPair tr c0 category subcategory = (c0, []) := by
  unfold backfillPair
  simp only [if_neg h1]
  simp only [if_neg h2]

theorem backfillPair_fst_other (tr c0 : String → String)
    (category subcategory : String) {f : String}
    (hf1 : f ≠ "category") (hf2 : f ≠ "subcategory") :
    (backfillPair tr c0 category subcategory).1 f = c0 f := by
  unfold backfillPair
  dsimp only
  split_ifs <;> simp [setField, hf1, hf2]

theorem backfillPair_fst_category_empty (tr c0 : String → String)
    {category : String} (subcategory : String) (hcat : category = "") :
    (backfillPair tr c0 category subcategory).1 "category"
      = c0 "category" := by
  subst hcat
  unfold backfillPair
  dsimp only
  split_ifs <;> simp_all [setField]

theorem backfillPair_fst_subcategory_empty (tr c0 : String → String)
    (category : String) {subcategory : String} (hsub : subcategory = "") :
    (backfillPair tr c0 category subcategory).1 "subcategory"
      = c0 "subcategory" := by
  subst hsub
  unfold backfillPair
  dsimp only
  split_ifs <;> simp_all [setField]

theorem backfillPair_fst_of_snd_nil {tr c0 : String → String}
    {category subcategory : String}
    (h : (backfillPair tr c0 category subcategory).2 = []) :
    (backfillPair tr c0 category subcategory).1 = c0 := by
  unfold backfillPair at h ⊢
  dsimp only at h ⊢
  split_ifs at h ⊢ <;> simp_all

/-! ## Upsert case analysis -/

theorem app_upsert_none_eq {store : String → Option AppEntity}
    {vacancy_ref : String} (vacancy_url : String) (data : String → String)
    (category subcategory : String) (run_id now : Nat)
    (hstore : store vacancy_ref = none) :
    app_upsert_smart store vacancy_ref vacancy_url data category subcategory
        run_id now =
      { status := "created", message := "", changed := [],
        entity :=
          { content := fun f =>
              lookupD (appNewVals vacancy_url data category subcategory) f "",
            last_checked_at := now, last_scrape_run_id := run_id,
            last_scrape_status := "created", last_scrape_message := "" } } := by
  simp only [app_upsert_smart, hstore]

theorem app_upsert_skipped_eq {store : String → Option AppEntity}
    {vacancy_ref : String} (vacancy_url : String) (data : String → String)
    {category subcategory : String} (run_id now : Nat) {obj : AppEntity}
    (hstore : store vacancy_ref = some obj)
    (hcat : category = "" ∨ pyStrip (pyTake 255 category) ≠ "")
    (hsub : subcategory = "" ∨ pyStrip (pyTake 255 subcategory) ≠ "")
    (hall : ∀ p ∈ appNewVals vacancy_url data category subcategory,
        obj.content p.1 = p.2) :
    app_upsert_smart store vacancy_ref vacancy_url data category subcategory
        run_id now =
      { status := "skipped", message := "", changed := [],
        entity :=
          { content := obj.content,
            last_checked_at := now, last_scrape_run_id := run_id,
            last_scrape_status := "skipped", last_scrape_message := "" } } := by
  have hb1 : ¬(category ≠ "" ∧ pyStrip (obj.content "category") = "") := by
    rintro ⟨hc, hs⟩
    rcases hcat with h | h
    · exact hc h
    · have he := hall _ (appNewVals_category_mem vacancy_url data subcategory hc)
      rw [he] at hs
      exact h hs
  have hb2 : ¬(subcategory ≠ "" ∧ pyStrip (obj.content "subcategory") = "") := by
    rintro ⟨hc, hs⟩
    rcases hsub with h | h
    · exact hc h
    · have he := hall _ (appNewVals_subcategory_mem vacancy_url data category hc)
      rw [he] at hs
      exact h hs
  have hbf := @backfillPair_of_no_trigger (pyTake 255) obj.content
      category subcategory hb1 hb2
  have hr2 : (applyDiff obj.content
      (appNewVals vacancy_url data category subcategory)).2 = [] :=
    (applyDiff_snd_nil_iff _ _).mpr hall
  have hr1 := applyDiff_fst_of_snd_nil hr2
  simp only [app_upsert_smart, hstore, hbf, hr2, hr1, List.nil_append,
    if_pos]

theorem app_upsert_updated {store : String → Option AppEntity}
    {vacancy_ref : String} (vacancy_url : String) (data : String → String)
    (category subcategory : String) (run_id now : Nat) {obj : AppEntity}
    (hstore : store vacancy_ref = some obj)
    (hdiff : ∃ p ∈ appNewVals vacancy_url data category subcategory,
        obj.content p.1 ≠ p.2) :
    (app_upsert_smart store vacancy_ref vacancy_url data category subcategory
        run_id now).status = "updated" ∧
    (∀ f, (app_upsert_smart store vacancy_ref vacancy_url data category
        subcategory run_id now).entity.content f =
      lookupD (appNewVals vacancy_url data category subcategory) f
        (obj.content f)) ∧
    (app_upsert_smart store vacancy_ref vacancy_url data category subcategory
        run_id now).entity.last_checked_at = now ∧
    (app_upsert_smart store vacancy_ref vacancy_url data category subcategory
        run_id now).entity.last_scrape_run_id = run_id := by
  set nv := appNewVals vacancy_url data category subcategory with hnv
  have hnd := appNewVals_keys_nodup vacancy_url data category subcategory
  rw [← hnv] at hnd
  set bs := backfillPair (pyTake 255) obj.content category subcategory with hbs
  have hchanged : ¬(bs.2 ++ (applyDiff bs.1 nv).2 = []) := by
    intro hnil
    have h2 : bs.2 = [] := by
      cases hq : bs.2 with
      | nil => rfl
      | cons a l => rw [hq] at hnil; simp at hnil
    have h1 : bs.1 = obj.content := backfillPair_fst_of_snd_nil (hbs ▸ h2)
    rw [h2, List.nil_append, h1] at hnil
    obtain ⟨p, hp, hne⟩ := hdiff
    exact hne (((applyDiff_snd_nil_iff _ _).mp hnil) p hp)
  have hcontent : ∀ f, (applyDiff bs.1 nv).1 f = lookupD nv f (obj.content f) := by
    intro f
    rw [applyDiff_fst hnd]
    by_cases hfmem : f ∈ nv.map Prod.fst
    · exact lookupD_default_irrel hfmem _ _
    · have hbf : bs.1 f = obj.content f := by
        by_cases hf1 : f = "category"
        · subst hf1
          have hcempty : category = "" := by
            by_contra hcne
            exact hfmem (hnv ▸
              appNewVals_category_key_mem vacancy_url data subcategory hcne)
          exact hbs ▸ backfillPair_fst_category_empty _ _ _ hcempty
        · by_cases hf2 : f = "subcategory"
          · subst hf2
            have hsempty : subcategory = "" := by
              by_contra hsne
              exact hfmem (hnv ▸
                appNewVals_subcategory_key_mem vacancy_url data category hsne)
            exact hbs ▸ backfillPair_fst_subcategory_empty _ _ _ hsempty
          · exact hbs ▸ backfillPair_fst_other _ _ _ _ hf1 hf2
      rw [hbf]
  simp only [app_upsert_smart, hstore, ← hnv, ← hbs, if_neg hchanged]
  exact ⟨by trivial, hcontent, by trivial, by trivial⟩

theorem jobUpsert_skipped_eq {store : String → Option AppEntity}
    {job_id : String} {sv : List (String × String)}
    {category subcategory : String} (run_id now : Nat) {obj : AppEntity}
    (hstore : store job_id = some obj)
    (hc : pyStrip (obj.content "category") ≠ "")
    (hs : pyStrip (obj.content "subcategory") ≠ "")
    (hall : ∀ p ∈ jobDiffList sv, obj.content p.1 = p.2) :
    jobUpsertCore store job_id sv category subcategory none run_id now =
      { status := "skipped", message := "", changed := [],
        entity :=
          { content := obj.content,
            last_checked_at := now, last_scrape_run_id := run_id,
            last_scrape_status := "skipped", last_scrape_message := "" } } := by
  have hb1 : ¬(category ≠ "" ∧ pyStrip (obj.content "category") = "") :=
    fun h => hc h.2
  have hb2 : ¬(subcategory ≠ "" ∧ pyStrip (obj.content "subcategory") = "") :=
    fun h => hs h.2
  have hbf := @backfillPair_of_no_trigger (fun s => s) obj.content
      category subcategory hb1 hb2
  have hr2 : (applyDiff obj.content (jobDiffList sv)).2 = [] :=
    (applyDiff_snd_nil_iff _ _).mpr hall
  have hr1 := applyDiff_fst_of_snd_nil hr2
  simp only [jobUpsertCore, hstore, hbf, List.nil_append, hr2, hr1, if_pos]

theorem jobUpsert_updated {store : String → Option AppEntity}
    {job_id : String} {sv : List (String × String)}
    {category subcategory : String} (run_id now : Nat) {obj : AppEntity}
    (hstore : store job_id = some obj)
    (hnd : (sv.map Prod.fst).Nodup)
    (hc : pyStrip (obj.content "category") ≠ "")
    (hs : pyStrip (obj.content "subcategory") ≠ "")
    (hdiff : ∃ p ∈ jobDiffList sv, obj.content p.1 ≠ p.2) :
    (jobUpsertCore store job_id sv category subcategory none run_id
        now).status = "updated" ∧
    ∀ f, (jobUpsertCore store job_id sv category subcategory none run_id
        now).entity.content f =
      lookupD (jobDiffList sv) f (obj.content f) := by
  have hb1 : ¬(category ≠ "" ∧ pyStrip (obj.content "category") = "") :=
    fun h => hc h.2
  have hb2 : ¬(subcategory ≠ "" ∧ pyStrip (obj.content "subcategory") = "") :=
    fun h => hs h.2
  have hbf := @backfillPair_of_no_trigger (fun s => s) obj.content
      category subcategory hb1 hb2
  have hndd := jobDiffList_keys_nodup hnd
  have hr2 : ¬((applyDiff obj.content (jobDiffList sv)).2 = []) := by
    intro hnil
    obtain ⟨p, hp, hne⟩ := hdiff
    exact hne (((applyDiff_snd_nil_iff _ _).mp hnil) p hp)
  simp only [jobUpsertCore, hstore, hbf, List.nil_append, if_neg hr2]
  exact ⟨by trivial, fun f => applyDiff_fst hndd obj.content f⟩

theorem jobUpsert_existing_content {store : String → Option AppEntity}
    {job_id : String} {sv : List (String × String)}
    {category subcategory : String} (run_id now : Nat) {obj : AppEntity}
    (hstore : store job_id = some obj)
    (hnd : (sv.map Prod.fst).Nodup)
    (hc : pyStrip (obj.content "category") ≠ "")
    (hs : pyStrip (obj.content "subcategory") ≠ "") :
    ∀ f, (jobUpsertCore store job_id sv category subcategory none run_id
        now).entity.content f =
      lookupD (jobDiffList sv) f (obj.content f) := by
  have hb1 : ¬(category ≠ "" ∧ pyStrip (obj.content "category") = "") :=
    fun h => hc h.2
  have hb2 : ¬(subcategory ≠ "" ∧ pyStrip (obj.content "subcategory") = "") :=
    fun h => hs h.2
  have hbf := @backfillPair_of_no_trigger (fun s => s) obj.content
      category subcategory hb1 hb2
  have hndd := jobDiffList_keys_nodup hnd
  intro f
  by_cases hr2 : (applyDiff obj.content (jobDiffList sv)).2 = [] <;>
    simp only [jobUpsertCore, hstore, hbf, List.nil_append, hr2, if_pos,
      if_neg, ite_true, ite_false] <;>
    exact applyDiff_fst hndd obj.content f

/-! ## Claim C1 -/

/-- **C1** (amended): upsert status and per-field persistence.
Apprenticeship `_upsert_smart` (category/subcategory counted among the
supplied fields; callers pass stripped-or-empty category/subcategory):
a missing entity is created holding exactly the supplied field map with
status `created`; on an existing entity, if no supplied field differs the
status is `skipped` and only metadata changes, otherwise the status is
`updated` and each field takes its supplied value when one was supplied and
keeps its stored value otherwise.  Job inline upsert on an existing entity
with non-blank stored category/subcategory: category/subcategory are
excluded from the diff — the stored values survive even when the supplied
ones differ — and the status is `skipped` exactly when no other supplied
field differs, `updated` otherwise. -/
theorem C1_upsert_status_and_diff :
    (∀ (store : String → Option AppEntity) (ref url : String)
        (data : String → String) (category subcategory : String)
        (run_id now : Nat),
      (category = "" ∨ pyStrip (pyTake 255 category) ≠ "") →
      (subcategory = "" ∨ pyStrip (pyTake 255 subcategory) ≠ "") →
      (store ref = none →
        app_upsert_smart store ref url data category subcategory run_id now =
          { status := "created", message := "", changed := [],
            entity :=
              { content := fun f =>
                  lookupD (appNewVals url data category subcategory) f "",
                last_checked_at := now, last_scrape_run_id := run_id,
                last_scrape_status := "created",
                last_scrape_message := "" } }) ∧
      (∀ obj : AppEntity, store ref = some obj →
        ((∀ p ∈ appNewVals url data category subcategory,
            obj.content p.1 = p.2) →
          app_upsert_smart store ref url data category subcategory run_id
              now =
            { status := "skipped", message := "", changed := [],
              entity :=
                { content := obj.content,
                  last_checked_at := now, last_scrape_run_id := run_id,
                  last_scrape_status := "skipped",
                  last_scrape_message := "" } }) ∧
        ((∃ p ∈ appNewVals url data category subcategory,
            obj.content p.1 ≠ p.2) →
          (app_upsert_smart store ref url data category subcategory run_id
              now).status = "updated" ∧
          (∀ f, (app_upsert_smart store ref url data category subcategory
              run_id now).entity.content f =
            lookupD (appNewVals url data category subcategory) f
              (obj.content f)) ∧
          (app_upsert_smart store ref url data category subcategory run_id
              now).entity.last_checked_at = now ∧
          (app_upsert_smart store ref url data category subcategory run_id
              now).entity.last_scrape_run_id = run_id)))
    ∧
    (∀ (store : String → Option AppEntity) (job_id : String)
        (sv : List (String × String)) (category subcategory : String)
        (run_id now : Nat) (obj : AppEntity),
      (sv.map Prod.fst).Nodup →
      store job_id = some obj →
      pyStrip (obj.content "category") ≠ "" →
      pyStrip (obj.content "subcategory") ≠ "" →
      (jobUpsertCore store job_id sv category subcategory none run_id
          now).entity.content "category" = obj.content "category" ∧
      (jobUpsertCore store job_id sv category subcategory none run_id
          now).entity.content "subcategory" = obj.content "subcategory" ∧
      ((∀ p ∈ jobDiffList sv, obj.content p.1 = p.2) →
        jobUpsertCore store job_id sv category subcategory none run_id now =
          { status := "skipped", message := "", changed := [],
            entity :=
              { content := obj.content,
                last_checked_at := now, last_scrape_run_id := run_id,
                last_scrape_status := "skipped",
                last_scrape_message := "" } }) ∧
      ((∃ p ∈ jobDiffList sv, obj.content p.1 ≠ p.2) →
        (jobUpsertCore store job_id sv category subcategory none run_id
            now).status = "updated" ∧
        ∀ f, (jobUpsertCore store job_id sv category subcategory none run_id
            now).entity.content f =
          lookupD (jobDiffList sv) f (obj.content f))) := by
  constructor
  · intro store ref url data category subcategory run_id now hcat hsub
    constructor
    · intro hstore
      exact app_upsert_none_eq url data category subcategory run_id now hstore
    · intro obj hstore
      constructor
      · intro hall
        exact app_upsert_skipped_eq url data run_id now hstore hcat hsub hall
      · intro hdiff
        exact app_upsert_updated url data category subcategory run_id now
          hstore hdiff
  · intro store job_id sv category subcategory run_id now obj hnd hstore hc hs
    have hcontent := @jobUpsert_existing_content store job_id sv category
      subcategory run_id now obj hstore hnd hc hs
    refine ⟨?_, ?_, ?_, ?_⟩
    · rw [hcontent "category",
        lookupD_not_mem (jobDiffList_no_category sv)]
    · rw [hcontent "subcategory",
        lookupD_not_mem (jobDiffList_no_subcategory sv)]
    · intro hall
      exact jobUpsert_skipped_eq run_id now hstore hc hs hall
    · intro hdiff
      exact jobUpsert_updated run_id now hstore hnd hc hs hdiff

/-- **C1** counterexample to the claim as stated: in the job vertical, with
an existing entity whose stored category is `"Construction"`, supplying a
field map containing the differing `category = "Health"` (and no other
difference) yields status `skipped` — not `updated` — and the differing
supplied field is not persisted. -/
theorem C1_counterexample :
    ("category", "Health") ∈
      [("title", "Nurse"), ("category", "Health"),
       ("subcategory", "Nursing")] ∧
    ("Health" : String) ≠ "Construction" ∧
    (jobUpsertCore
      (fun r => if r = "123" then
        some { content := fun f =>
                 if f = "title" then "Nurse"
                 else if f = "category" then "Construction"
                 else if f = "subcategory" then "Health care" else "",
               last_checked_at := 0, last_scrape_run_id := 0,
               last_scrape_status := "updated", last_scrape_message := "" }
        else none)
      "123"
      [("title", "Nurse"), ("category", "Health"), ("subcategory", "Nursing")]
      "Health" "Nursing" none 7 8).status = "skipped" ∧
    (jobUpsertCore
      (fun r => if r = "123" then
        some { content := fun f =>
                 if f = "title" then "Nurse"
                 else if f = "category" then "Construction"
                 else if f = "subcategory" then "Health care" else "",
               last_checked_at := 0, last_scrape_run_id := 0,
               last_scrape_status := "updated", last_scrape_message := "" }
        else none)
      "123"
      [("title", "Nurse"), ("category", "Health"), ("subcategory", "Nursing")]
      "Health" "Nursing" none 7 8).entity.content "category"
      = "Construction" := by
  refine ⟨by decide, by decide, ?_, ?_⟩ <;> decide

/-- Witness for C1: the amended theorem applied at concrete inputs. -/
theorem C1_witness :
    (app_upsert_smart (fun _ => none) "r1" "u" (fun _ => "") "Health" "Care"
        1 2).status = "created" ∧
    (jobUpsertCore (fun _ => some
        { content := fun _ => "x", last_checked_at := 0,
          last_scrape_run_id := 0, last_scrape_status := "",
          last_scrape_message := "" })
      "j1" [("title", "x")] "Health" "Care" none 3 4).status = "skipped" := by
  constructor
  · have h := (C1_upsert_status_and_diff.1 (fun _ => none) "r1" "u"
      (fun _ => "") "Health" "Care" 1 2 (Or.inr (by decide))
      (Or.inr (by decide))).1 rfl
    rw [h]
  · have h := ((C1_upsert_status_and_diff.2 (fun _ => some
        { content := fun _ => "x", last_checked_at := 0,
          last_scrape_run_id := 0, last_scrape_status := "",
          last_scrape_message := "" })
      "j1" [("title", "x")] "Health" "Care" 3 4 _ (by decide) rfl
      (by decide) (by decide)).2.2.1) (by decide)
    rw [h]

theorem pyStrip_empty : pyStrip "" = "" := by decide

theorem ne_empty_of_strip_ne {s : String} (h : pyStrip s ≠ "") : s ≠ "" := by
  intro hs
  exact h (hs ▸ pyStrip_empty)

theorem backfillPair_category_nonblank (tr c0 : String → String)
    {category : String} (subcategory : String) (h1 : category ≠ "")
    (h2 : pyStrip (tr category) ≠ "") :
    pyStrip ((backfillPair tr c0 category subcategory).1 "category") ≠ "" := by
  unfold backfillPair
  dsimp only
  split_ifs with ha hb hb <;> simp_all [setField]

theorem backfillPair_subcategory_nonblank (tr c0 : String → String)
    (category : String) {subcategory : String} (h1 : subcategory ≠ "")
    (h2 : pyStrip (tr subcategory) ≠ "") :
    pyStrip ((backfillPair tr c0 category subcategory).1 "subcategory")
      ≠ "" := by
  unfold backfillPair
  dsimp only
  split_ifs with ha hb hb <;> simp_all [setField]

theorem jobUpsert_created_eq {store : String → Option AppEntity}
    {job_id : String} (sv : List (String × String))
    (category subcategory : String) (run_id now : Nat)
    (hstore : store job_id = none) :
    jobUpsertCore store job_id sv category subcategory none run_id now =
      { status := "created", message := "", changed := [],
        entity :=
          { content := fun f => lookupD sv f "",
            last_checked_at := now, last_scrape_run_id := run_id,
            last_scrape_status := "created", last_scrape_message := "" } } := by
  simp only [jobUpsertCore, hstore]

theorem jobUpsert_existing_content_general {store : String → Option AppEntity}
    {job_id : String} {sv : List (String × String)}
    (category subcategory : String) (run_id now : Nat) {obj : AppEntity}
    (hstore : store job_id = some obj)
    (hnd : (sv.map Prod.fst).Nodup) :
    ∀ f, (jobUpsertCore store job_id sv category subcategory none run_id
        now).entity.content f =
      lookupD (jobDiffList sv) f
        ((backfillPair (fun s => s) obj.content category subcategory).1 f) := by
  intro f
  have hndd := jobDiffList_keys_nodup hnd
  by_cases hr2 : (applyDiff
      ((backfillPair (fun s => s) obj.content category subcategory).1)
      (jobDiffList sv)).2 = [] <;>
    simp only [jobUpsertCore, hstore, List.nil_append, hr2, if_pos,
      if_neg, ite_true, ite_false] <;>
    exact applyDiff_fst hndd _ f

/-! ## Claim C5 -/

/-- **C5**: evaluation at the failing input.  In the apprenticeship upsert the
generic diff loop also iterates over the `category`/`subcategory` entries of
`new_vals`, so an existing entity whose stored category `"Engineering"` is
non-empty (its strip is non-empty) gets overwritten by the differing supplied
category `"Health"` and the row is marked updated — contradicting the
back-fill-only contract.  The job command's inline upsert, which skips the
two keys in its diff loop, preserves the stored value on the same shape of
input. -/
theorem C5_category_overwritten_eval :
    pyStrip "Engineering" ≠ "" ∧
    (app_upsert_smart
      (fun r => if r = "VAC1" then
        some { content := fun f =>
                 if f = "category" then "Engineering"
                 else if f = "vacancy_url" then "u" else "",
               last_checked_at := 0, last_scrape_run_id := 0,
               last_scrape_status := "", last_scrape_message := "" }
        else none)
      "VAC1" "u" (fun _ => "") "Health" "" 1 2).entity.content "category"
      = "Health" ∧
    (app_upsert_smart
      (fun r => if r = "VAC1" then
        some { content := fun f =>
                 if f = "category" then "Engineering"
                 else if f = "vacancy_url" then "u" else "",
               last_checked_at := 0, last_scrape_run_id := 0,
               last_scrape_status := "", last_scrape_message := "" }
        else none)
      "VAC1" "u" (fun _ => "") "Health" "" 1 2).status = "updated" ∧
    (app_upsert_smart
      (fun r => if r = "VAC1" then
        some { content := fun f =>
                 if f = "category" then "Engineering"
                 else if f = "vacancy_url" then "u" else "",
               last_checked_at := 0, last_scrape_run_id := 0,
               last_scrape_status := "", last_scrape_message := "" }
        else none)
      "VAC1" "u" (fun _ => "") "Health" "" 1 2).changed = ["category"] ∧
    (jobUpsertCore
      (fun r => if r = "1" then
        some { content := fun f =>
                 if f = "category" then "Engineering"
                 else if f = "subcategory" then "S" else "",
               last_checked_at := 0, last_scrape_run_id := 0,
               last_scrape_status := "", last_scrape_message := "" }
        else none)
      "1" [("category", "Health")] "Health" "" none 1 2).entity.content
        "category" = "Engineering" := by
  refine ⟨by decide, ?_, ?_, ?_, ?_⟩ <;> decide

/-! ## Claim C8 -/

/-- **C8**: upsert idempotence.  Re-running either vertical's upsert with an
identical field map (and any second run id/timestamp) yields status
`skipped` with an empty `changed_fields` list, while still stamping the new
`last_checked_at`/`last_scrape_run_id`.  Hypotheses reflect the call sites:
the apprenticeship category/subcategory arguments are stripped-or-empty
strings, and the job `safe_vals` dict has distinct keys and carries the
(stripped, non-empty) category/subcategory entries the command always sets
on `merged`. -/
theorem C8_upsert_idempotent :
    (∀ (store : String → Option AppEntity) (ref url : String)
        (data : String → String) (category subcategory : String)
        (rid1 now1 rid2 now2 : Nat),
      (category = "" ∨ pyStrip (pyTake 255 category) ≠ "") →
      (subcategory = "" ∨ pyStrip (pyTake 255 subcategory) ≠ "") →
      (app_upsert_smart
          (updateStore store ref
            (app_upsert_smart store ref url data category subcategory rid1
              now1).entity)
          ref url data category subcategory rid2 now2) =
        { status := "skipped", message := "", changed := [],
          entity :=
            { content := (app_upsert_smart store ref url data category
                subcategory rid1 now1).entity.content,
              last_checked_at := now2, last_scrape_run_id := rid2,
              last_scrape_status := "skipped",
              last_scrape_message := "" } })
    ∧
    (∀ (store : String → Option AppEntity) (job_id : String)
        (sv : List (String × String)) (category subcategory : String)
        (rid1 now1 rid2 now2 : Nat),
      (sv.map Prod.fst).Nodup →
      ("category", category) ∈ sv →
      ("subcategory", subcategory) ∈ sv →
      pyStrip category ≠ "" →
      pyStrip subcategory ≠ "" →
      (jobUpsertCore
          (updateStore store job_id
            (jobUpsertCore store job_id sv category subcategory none rid1
              now1).entity)
          job_id sv category subcategory none rid2 now2) =
        { status := "skipped", message := "", changed := [],
          entity :=
            { content := (jobUpsertCore store job_id sv category subcategory
                none rid1 now1).entity.content,
              last_checked_at := now2, last_scrape_run_id := rid2,
              last_scrape_status := "skipped",
              last_scrape_message := "" } }) := by
  constructor
  · intro store ref url data category subcategory rid1 now1 rid2 now2 hcat hsub
    have hnd := appNewVals_keys_nodup url data category subcategory
    have hstore2 : (updateStore store ref
        (app_upsert_smart store ref url data category subcategory rid1
          now1).entity) ref =
        some (app_upsert_smart store ref url data category subcategory rid1
          now1).entity := by
      simp [updateStore]
    have hall : ∀ p ∈ appNewVals url data category subcategory,
        (app_upsert_smart store ref url data category subcategory rid1
          now1).entity.content p.1 = p.2 := by
      cases hstore : store ref with
      | none =>
          rw [app_upsert_none_eq url data category subcategory rid1 now1
            hstore]
          intro p hp
          exact lookupD_mem hnd hp ""
      | some obj =>
          by_cases hd : ∀ p ∈ appNewVals url data category subcategory,
              obj.content p.1 = p.2
          · rw [app_upsert_skipped_eq url data rid1 now1 hstore hcat hsub hd]
            exact hd
          · push_neg at hd
            obtain ⟨p0, hp0, hne0⟩ := hd
            have hupd := app_upsert_updated url data category subcategory
              rid1 now1 hstore ⟨p0, hp0, hne0⟩
            intro p hp
            rw [hupd.2.1 p.1]
            exact lookupD_mem hnd hp _
    exact app_upsert_skipped_eq url data rid2 now2 hstore2 hcat hsub hall
  · intro store job_id sv category subcategory rid1 now1 rid2 now2 hnd hmc
      hms hsc hss
    have hndd := jobDiffList_keys_nodup hnd
    have hstore2 : (updateStore store job_id
        (jobUpsertCore store job_id sv category subcategory none rid1
          now1).entity) job_id =
        some (jobUpsertCore store job_id sv category subcategory none rid1
          now1).entity := by
      simp [updateStore]
    have hcne : category ≠ "" := ne_empty_of_strip_ne hsc
    have hsne : subcategory ≠ "" := ne_empty_of_strip_ne hss
    have hstep : pyStrip ((jobUpsertCore store job_id sv category subcategory
          none rid1 now1).entity.content "category") ≠ "" ∧
        pyStrip ((jobUpsertCore store job_id sv category subcategory
          none rid1 now1).entity.content "subcategory") ≠ "" ∧
        ∀ p ∈ jobDiffList sv,
          (jobUpsertCore store job_id sv category subcategory none rid1
            now1).entity.content p.1 = p.2 := by
      cases hstore : store job_id with
      | none =>
          rw [jobUpsert_created_eq sv category subcategory rid1 now1 hstore]
          refine ⟨?_, ?_, ?_⟩
          · show pyStrip (lookupD sv "category" "") ≠ ""
            rw [lookupD_mem hnd hmc ""]
            exact hsc
          · show pyStrip (lookupD sv "subcategory" "") ≠ ""
            rw [lookupD_mem hnd hms ""]
            exact hss
          · intro p hp
            show lookupD sv p.1 "" = p.2
            exact lookupD_mem hnd (List.mem_of_mem_filter hp) ""
      | some obj =>
          have hgen := jobUpsert_existing_content_general category
            subcategory rid1 now1 hstore hnd
          refine ⟨?_, ?_, ?_⟩
          · rw [hgen "category",
              lookupD_not_mem (jobDiffList_no_category sv)]
            exact backfillPair_category_nonblank (fun s => s) obj.content
              subcategory hcne hsc
          · rw [hgen "subcategory",
              lookupD_not_mem (jobDiffList_no_subcategory sv)]
            exact backfillPair_subcategory_nonblank (fun s => s) obj.content
              category hsne hss
          · intro p hp
            rw [hgen p.1]
            exact lookupD_mem hndd hp _
    exact jobUpsert_skipped_eq rid2 now2 hstore2 hstep.1 hstep.2.1 hstep.2.2

/-- Witness for C8: both idempotence statements applied at concrete inputs. -/
theorem C8_witness :
    (app_upsert_smart
        (updateStore (fun _ => none) "VAC9"
          (app_upsert_smart (fun _ => none) "VAC9" "u" (fun _ => "x")
            "Health" "Care" 1 2).entity)
        "VAC9" "u" (fun _ => "x") "Health" "Care" 3 4).status = "skipped" ∧
    (jobUpsertCore
        (updateStore (fun _ => none) "77"
          (jobUpsertCore (fun _ => none) "77"
            [("title", "T"), ("category", "Health"), ("subcategory", "Care")]
            "Health" "Care" none 1 2).entity)
        "77" [("title", "T"), ("category", "Health"), ("subcategory", "Care")]
        "Health" "Care" none 3 4).status = "skipped" := by
  constructor
  · have h := C8_upsert_idempotent.1 (fun _ => none) "VAC9" "u"
      (fun _ => "x") "Health" "Care" 1 2 3 4 (Or.inr (by decide))
      (Or.inr (by decide))
    rw [h]
  · have h := C8_upsert_idempotent.2 (fun _ => none) "77"
      [("title", "T"), ("category", "Health"), ("subcategory", "Care")]
      "Health" "Care" 1 2 3 4 (by decide) (by decide) (by decide)
      (by decide) (by decide)
    rw [h]

/-! ## Merge lemmas and claim C2 -/

theorem mergeStep_other (d : String → String) (key lv f : String)
    (h : f ≠ key) : mergeStep d key lv f = d f := by
  unfold mergeStep
  split_ifs <;> simp [setField, h]

theorem mergeStep_self (d : String → String) (key lv : String) :
    mergeStep d key lv key =
      if is_emptyish (d key) ∧ lv ≠ "" then lv else d key := by
  unfold mergeStep
  simp only [pyTruthy, ne_eq, decide_not, Bool.not_eq_true', decide_eq_false_iff_not]
  split_ifs <;> simp_all [setField]

theorem fill_if_empty_other (m : String → String) (k v f : String)
    (h : f ≠ k) : fill_if_empty m k v f = m f := by
  unfold fill_if_empty
  split_ifs <;> simp [setField, h]

theorem fill_if_empty_self (m : String → String) (k v : String) :
    fill_if_empty m k v k = if m k = "" then v else m k := by
  unfold fill_if_empty
  split_ifs <;> simp [setField]

theorem condSet_other (c : Prop) [Decidable c] (m : String → String)
    (k v f : String) (h : f ≠ k) :
    (if c then setField m k v else m) f = m f := by
  split_ifs <;> simp [setField, h]

/-- **C2** (amended): the merge is deterministic and total, but the listing
value wins only under each vertical's own test.  Apprenticeship: a merged
field equals the listing value exactly when the detail value is emptyish
*and* the listing value is non-empty; an emptyish detail value is kept when
the listing value is empty; fields outside the eight merged ones pass
through.  Job: the replacement test is plain emptiness of the detail value
(`in ("", None)`), so placeholder values such as `"n/a"` are never replaced. -/
theorem C2_merge_characterization :
    (∀ (details : String → String) (l : ListedVacancy) (f : String),
      f ∈ appMergeFields →
      appMergeDetails details l f =
        if is_emptyish (details f) ∧ listedVacancyGet l f ≠ "" then
          listedVacancyGet l f
        else details f)
    ∧ (∀ (details : String → String) (l : ListedVacancy) (f : String),
      f ∉ appMergeFields → appMergeDetails details l f = details f)
    ∧ (∀ (details : String → String) (l : ListedJob)
        (category subcategory f : String),
      f ∈ jobFillFields →
      jobBuildMerged details l category subcategory f =
        if details f = "" then listedJobGet l f else details f) := by
  refine ⟨?_, ?_, ?_⟩
  · intro details l f hf
    fin_cases hf <;>
      simp [appMergeDetails, mergeStep_self, mergeStep_other,
        listedVacancyGet]
  · intro details l f hf
    simp only [appMergeFields, List.mem_cons, List.not_mem_nil, or_false]
      at hf
    push_neg at hf
    obtain ⟨h1, h2, h3, h4, h5, h6, h7, h8⟩ := hf
    unfold appMergeDetails
    rw [mergeStep_other _ _ _ _ h8, mergeStep_other _ _ _ _ h7,
      mergeStep_other _ _ _ _ h6, mergeStep_other _ _ _ _ h5,
      mergeStep_other _ _ _ _ h4, mergeStep_other _ _ _ _ h3,
      mergeStep_other _ _ _ _ h2, mergeStep_other _ _ _ _ h1]
  · intro details l category subcategory f hf
    fin_cases hf <;>
      simp [jobBuildMerged, fill_if_empty_self, fill_if_empty_other,
        condSet_other, setField, listedJobGet]

/-- **C2** counterexample to the claim as stated: `"n/a"` is emptyish, yet in
the job vertical a detail salary of `"n/a"` is not replaced by the listing's
`"£30,000"`, and in the apprenticeship vertical a detail title of `"n/a"` is
kept instead of the listing's (empty) title value. -/
theorem C2_counterexample :
    is_emptyish "n/a" = true ∧
    jobBuildMerged (fun f => if f = "salary" then "n/a" else "")
      { job_id := "1", url := "u", salary := "£30,000" } "c" "s" "salary"
      = "n/a" ∧
    ("n/a" : String) ≠ "£30,000" ∧
    appMergeDetails (fun f => if f = "title" then "n/a" else "")
      { vacancy_ref := "VAC1", url := "u" } "title" = "n/a" ∧
    ("n/a" : String) ≠ "" := by
  refine ⟨by decide, by decide, by decide, by decide, by decide⟩

/-- Witness for C2: the characterization applied at the `wage`/`salary`
fields of the end-to-end scenario. -/
theorem C2_witness :
    appMergeDetails (fun f => if f = "wage" then "£6.40 an hour" else "")
      { vacancy_ref := "VAC1", url := "u", wage := "listing wage" } "wage"
      = "£6.40 an hour" ∧
    jobBuildMerged (fun _ => "")
      { job_id := "1", url := "u", salary := "£30,000" } "c" "s" "salary"
      = "£30,000" := by
  constructor
  · have h := C2_merge_characterization.1
      (fun f => if f = "wage" then "£6.40 an hour" else "")
      { vacancy_ref := "VAC1", url := "u", wage := "listing wage" } "wage"
      (by decide)
    rw [h]
    decide
  · have h := C2_merge_characterization.2.2 (fun _ => "")
      { job_id := "1", url := "u", salary := "£30,000" } "c" "s" "salary"
      (by decide)
    rw [h]
    decide

/-! ## Label/value lookup (`_find_after_label`, claim C9) -/

/-- `_norm_apostrophes` from `job/scrapper/ncs.py`: the four unicode
apostrophe variants become `'`. -/
def normApostrophes (s : String) : String :=
  (s.toList.map (fun c =>
    if c = '’' ∨ c = '‘' ∨ c = '‛' ∨ c = '′' then '\''
    else c)).asString

/-- Python `s.rstrip(":")`. -/
def pyRstripColon (s : String) : String :=
  ((s.toList.reverse.dropWhile (· = ':')).reverse).asString

/-- Python `s.startswith(p)`. -/
def pyStartsWith (s p : String) : Bool :=
  p.toList.isPrefixOf s.toList

/-- The `\s*:?\s*` consumption of the job label regex: maximal whitespace,
an optional colon, maximal whitespace. -/
def dropWsColonWs (s : String) : String :=
  let l1 := s.toList.dropWhile pyIsSpace
  let l2 := match l1 with
    | ':' :: rest => rest
    | _ => l1
  (l2.dropWhile pyIsSpace).asString

/-- The fixed label tuple of `DwpJobClient._is_label_line`. -/
def jobDetailLabels : List String :=
  ["posting date", "hours", "closing date", "location", "company",
   "job type", "job reference", "salary", "remote working",
   "additional salary information", "disability confident"]

/-- `DwpJobClient._is_label_line`. -/
def job_is_label_line (t : String) : Bool :=
  let low := pyLower (normApostrophes (clean t))
  jobDetailLabels.any (fun lab => pyStartsWith low lab)

/-- The normalised label (`_norm_apostrophes(label.strip().rstrip(":")).lower()`). -/
def jobLabelBase (label : String) : String :=
  pyLower (normApostrophes (pyRstripColon (pyStrip label)))

/-- Whether a (normalised, stripped) line matches the job label regex
`^base\s*:?\s*(.*)$` under `re.I` (and is non-empty, which the loop demands). -/
def jobLabelMatch (base t : String) : Bool :=
  t ≠ "" && pyStartsWith (pyLower t) base

/-- The cleaned capture group of the job label regex. -/
def jobLabelRemainder (base t : String) : String :=
  clean (dropWsColonWs (pyDrop (pyLen base) t))

/-- The loop of `DwpJobClient._find_after_label` (enumerate with a
`lines[i + 1]` lookahead becomes head/tail recursion with lookahead). -/
def jobFindAfterLabelGo (base : String) : List String → String
  | [] => ""
  | ln :: rest =>
      let t := pyStrip (normApostrophes ln)
      if t = "" then jobFindAfterLabelGo base rest
      else if pyStartsWith (pyLower t) base then
        let inline_val := jobLabelRemainder base t
        if inline_val ≠ "" then inline_val
        else
          match rest with
          | [] => ""
          | nxt0 :: _ =>
              let nxt := pyStrip (normApostrophes nxt0)
              if nxt ≠ "" ∧ ¬(job_is_label_line nxt = true) then clean nxt
              else ""
      else jobFindAfterLabelGo base rest

/-- `DwpJobClient._find_after_label`. -/
def jobFindAfterLabel (lines : List String) (label : String) : String :=
  jobFindAfterLabelGo (jobLabelBase label) lines

/-- The claim's description of `labelValue`, written as structural recursion:
the remainder of the first line matching the label (optionally
colon-suffixed) when non-empty; otherwise the following line unless it
matches a known label pattern, in which case the empty string; the empty
string when no line matches. -/
def labelValueSpec (base : String) : List String → String
  | [] => ""
  | ln :: rest =>
      let t := pyStrip (normApostrophes ln)
      if jobLabelMatch base t then
        let rem := jobLabelRemainder base t
        if rem ≠ "" then rem
        else
          match rest with
          | [] => ""
          | nxt0 :: _ =>
              let nxt := pyStrip (normApostrophes nxt0)
              if job_is_label_line nxt then "" else clean nxt
      else labelValueSpec base rest

/-- The labels the apprenticeship scraper queries through its
`_find_after_label` — its de-facto known-label set. -/
def appQueriedLabels : List String :=
  ["Start date", "Training course", "Wage", "Hours", "Duration",
   "Positions available"]

/-- The loop of the apprenticeship `_find_after_label`. -/
def appFindAfterLabelGo (base label : String) : List String → String
  | [] => ""
  | ln :: rest =>
      let t := clean ln
      let low := pyLower t
      if low = base then
        match rest with
        | [] => ""
        | nxt :: _ => clean nxt
      else if pyStartsWith low (base ++ " ") then clean (pyDrop (pyLen label) t)
      else appFindAfterLabelGo base label rest

/-- `_find_after_label` from `apprenticeship/scrapper/ncs.py`. -/
def appFindAfterLabel (lines : List String) (label : String) : String :=
  appFindAfterLabelGo (pyLower (pyRstripColon (pyStrip label))) label lines

example : jobFindAfterLabel ["Posting date:", "8 May 2024"] "Posting date"
    = "8 May 2024" := by decide
example : jobFindAfterLabel ["Salary:", "Company"] "Salary" = "" := by decide

/-- **C9** (amended): the job extractor's `_find_after_label` satisfies the
claim exactly (with its fixed label tuple as the known-label set): it is
equal to the structural-recursive transcription of the claim.  The
apprenticeship variant, by contrast, matches a label only as a whole line or
a space-separated prefix (no colon-suffixed form) and, on a whole-line
match, returns the following line unconditionally — with no known-label
guard. -/
theorem C9_label_value_lookup :
    (∀ (lines : List String) (label : String),
      jobFindAfterLabel lines label = labelValueSpec (jobLabelBase label) lines)
    ∧
    (∀ (base label ln : String) (rest : List String),
      pyLower (clean ln) = base →
      appFindAfterLabelGo base label (ln :: rest) =
        match rest with
        | [] => ""
        | nxt :: _ => clean nxt) := by
  constructor
  · intro lines label
    unfold jobFindAfterLabel
    induction lines with
    | nil => rfl
    | cons ln rest ih =>
        simp only [jobFindAfterLabelGo, labelValueSpec]
        by_cases ht : pyStrip (normApostrophes ln) = ""
        · have hm : jobLabelMatch (jobLabelBase label)
              (pyStrip (normApostrophes ln)) = false := by
            simp [jobLabelMatch, ht]
          rw [if_pos ht, hm]
          simp only [Bool.false_eq_true, if_false]
          exact ih
        · rw [if_neg ht]
          by_cases hs : pyStartsWith (pyLower (pyStrip (normApostrophes ln)))
              (jobLabelBase label) = true
          · have hm : jobLabelMatch (jobLabelBase label)
                (pyStrip (normApostrophes ln)) = true := by
              simp [jobLabelMatch, ht, hs]
            rw [if_pos hs, hm]
            simp only [if_true]
            by_cases hr : jobLabelRemainder (jobLabelBase label)
                (pyStrip (normApostrophes ln)) ≠ ""
            · rw [if_pos hr, if_pos hr]
            · rw [if_neg hr, if_neg hr]
              cases rest with
              | nil => rfl
              | cons nxt0 rest' =>
                  dsimp only
                  by_cases hl : job_is_label_line
                      (pyStrip (normApostrophes nxt0)) = true
                  · rw [if_pos hl]
                    rw [if_neg]
                    rintro ⟨-, hnot⟩
                    exact hnot hl
                  · by_cases hn : pyStrip (normApostrophes nxt0) = ""
                    · have hgo : ¬(pyStrip (normApostrophes nxt0) ≠ "" ∧
                          ¬job_is_label_line
                            (pyStrip (normApostrophes nxt0)) = true) := by
                        rintro ⟨hne, -⟩
                        exact hne hn
                      rw [if_neg hgo, if_neg hl, hn]
                      decide
                    · have hgo : pyStrip (normApostrophes nxt0) ≠ "" ∧
                          ¬job_is_label_line
                            (pyStrip (normApostrophes nxt0)) = true :=
                        ⟨hn, hl⟩
                      rw [if_pos hgo, if_neg hl]
          · have hm : jobLabelMatch (jobLabelBase label)
                (pyStrip (normApostrophes ln)) = false := by
              simp only [jobLabelMatch, Bool.and_eq_false_iff]
              right
              simpa using hs
            rw [if_neg hs, hm]
            simp only [Bool.false_eq_true, if_false]
            exact ih
  · intro base label ln rest h
    simp only [appFindAfterLabelGo, h, if_pos]

/-- **C9** counterexample to the claim as stated, on the apprenticeship
variant: with `lines = ["Wage", "Training course"]` and label `"Wage"`, the
following line is itself a known label (`"Training course"` is one of the
labels the apprenticeship scraper queries), so the claim requires the empty
string, but the code returns `"Training course"`; and the colon-suffixed
inline form `"Wage: £6.40 an hour"` — which the claim's matching includes and
the job variant handles — is not matched at all, yielding `""` instead of
`"£6.40 an hour"`. -/
theorem C9_counterexample :
    appFindAfterLabel ["Wage", "Training course"] "Wage" = "Training course" ∧
    "Training course" ∈ appQueriedLabels ∧
    ("Training course" : String) ≠ "" ∧
    appFindAfterLabel ["Wage: £6.40 an hour", "Next line"] "Wage" = "" ∧
    jobFindAfterLabel ["Wage: £6.40 an hour"] "Wage" = "£6.40 an hour" := by
  refine ⟨by decide, by decide, by decide, by decide, by decide⟩

/-- Witness for C9: the second conjunct applied at a concrete whole-line
label match. -/
theorem C9_witness :
    appFindAfterLabelGo "wage" "Wage" ["Wage", "£6.40 an hour"]
      = clean "£6.40 an hour" := by
  exact C9_label_value_lookup.2 "wage" "Wage" "Wage" ["£6.40 an hour"]
    (by decide)

/-! ## Document model

Parsed HTML as a tree: element nodes with tag, attributes and children, and
text nodes.  BeautifulSoup operations used by the scrapers are modelled on
this tree: `select`/`find` search strict descendants in document order
(pre-order), `get_text(sep, strip=True)` joins the stripped non-empty text
descendants with the separator, `get_text()` concatenates raw text, and
`.parent` chains are represented by carrying the list of ancestors of a
node (nearest first). -/

inductive HNode where
  | elem (tag : String) (attrs : List (String × String)) (children : List HNode)
  | text (s : String)

/-- Attribute lookup (`tag.get(name)`). -/
def attrOf (n : HNode) (name : String) : Option String :=
  match n with
  | HNode.text _ => none
  | HNode.elem _ attrs _ =>
      match attrs.find? (fun p => p.1 = name) with
      | some p => some p.2
      | none => none

/-- Tag name (`tag.name`); `""` for text nodes. -/
def tagOf (n : HNode) : String :=
  match n with
  | HNode.elem t _ _ => t
  | HNode.text _ => ""

/-- Children of an element. -/
def childrenOf (n : HNode) : List HNode :=
  match n with
  | HNode.elem _ _ cs => cs
  | HNode.text _ => []

mutual

/-- `.stripped_strings`: stripped, non-empty text descendants in order. -/
def strippedStrings : HNode → List String
  | HNode.text s => if pyStrip s = "" then [] else [pyStrip s]
  | HNode.elem _ _ cs => strippedStringsList cs

def strippedStringsList : List HNode → List String
  | [] => []
  | c :: cs => strippedStrings c ++ strippedStringsList cs

end

mutual

/-- Raw text concatenation (`get_text()` with no separator, no strip). -/
def rawText : HNode → String
  | HNode.text s => s
  | HNode.elem _ _ cs => rawTextList cs

def rawTextList : List HNode → String
  | [] => ""
  | c :: cs => rawText c ++ rawTextList cs

end

/-- `get_text("\n", strip=True)`. -/
def getTextNl (n : HNode) : String :=
  String.intercalate "\n" (strippedStrings n)

/-- `get_text(" ", strip=True)`. -/
def getTextSpace (n : HNode) : String :=
  String.intercalate " " (strippedStrings n)

mutual

/-- The element nodes of a subtree (self included), in document order. -/
def elemsOf : HNode → List HNode
  | HNode.text _ => []
  | HNode.elem t a cs => HNode.elem t a cs :: elemsIn cs

/-- All element nodes of a forest, in document (pre-)order, roots included. -/
def elemsIn : List HNode → List HNode
  | [] => []
  | c :: rest => elemsOf c ++ elemsIn rest

end

/-- Strict element descendants of a node in document order (the search
space of `tag.select` / `tag.find_all`). -/
def descendantsOf (n : HNode) : List HNode :=
  elemsIn (childrenOf n)

/-- Python `str.splitlines()` for newline-separated text. -/
def pySplitlinesNl (s : String) : List String :=
  splitOnNl s.toList [] |>.reverse
where
  splitOnNl : List Char → List Char → List String
    | [], cur => [cur.reverse.asString]
    | '\n' :: rest, cur => splitOnNl rest [] ++ [cur.reverse.asString]
    | c :: rest, cur => splitOnNl rest (c :: cur)

/-! ## Identifier extraction (URL patterns) -/

/-- Python `\w` (ASCII part). -/
def pyIsWordChar (c : Char) : Bool :=
  c.isAlpha || c.isDigit || c = '_'

/-- Case-insensitive literal match: drop `pat` from the front of `l`. -/
def dropCiChars : List Char → List Char → Option (List Char)
  | [], l => some l
  | _ :: _, [] => none
  | p :: ps, c :: cs =>
      if c.toLower = p.toLower then dropCiChars ps cs else none

/-- `VACANCY_PATH_RE = ^/apprenticeship/(VAC\d+)\b` (re.I) applied with
`.match`, followed by `.group(1).upper()`. -/
def vacRefOfHref (href : String) : Option String :=
  match dropCiChars "/apprenticeship/vac".toList href.toList with
  | none => none
  | some rest =>
      let ds := rest.takeWhile Char.isDigit
      if ds = [] then none
      else
        match rest.drop ds.length with
        | [] => some ("VAC" ++ ds.asString)
        | c :: _ => if pyIsWordChar c then none else some ("VAC" ++ ds.asString)

/-- One attempted match of
`DETAILS_RE = (?:https?://findajob\.dwp\.gov\.uk)?/?details/(\d+)` (re.I)
at a fixed position. -/
def jobIdAt (l : List Char) : Option String :=
  let afterHost :=
    match dropCiChars "https://findajob.dwp.gov.uk".toList l with
    | some r => r
    | none =>
        match dropCiChars "http://findajob.dwp.gov.uk".toList l with
        | some r => r
        | none => l
  let afterSlash :=
    match afterHost with
    | '/' :: r => r
    | _ => afterHost
  match dropCiChars "details/".toList afterSlash with
  | none => none
  | some r =>
      let ds := r.takeWhile Char.isDigit
      if ds = [] then none else some ds.asString

/-- `DETAILS_RE.search(href)`: leftmost match. -/
def jobIdSearchGo : List Char → Option String
  | [] => none
  | l@(_ :: rest) =>
      match jobIdAt l with
      | some d => some d
      | none => jobIdSearchGo rest

def jobIdOfHref (href : String) : Option String :=
  jobIdSearchGo href.toList

/-- `NcsApprenticeshipClient._vac_refs_in_node`: refs found by the
`a[href^="/apprenticeship/"]` selector plus `VACANCY_PATH_RE` over the
node's strict descendants, as a set. -/
def vacRefsInNode (n : HNode) : Finset String :=
  ((descendantsOf n).filterMap (fun a =>
    if tagOf a = "a" then
      match attrOf a "href" with
      | some href =>
          if pyStartsWith href "/apprenticeship/" then vacRefOfHref href
          else none
      | none => none
    else none)).toFinset

/-- `DwpJobClient._job_ids_in_node`: ids from `a[href]` descendants via
`DETAILS_RE.search`, as a set. -/
def jobIdsInNode (n : HNode) : Finset String :=
  ((descendantsOf n).filterMap (fun a =>
    if tagOf a = "a" then
      match attrOf a "href" with
      | some href => jobIdOfHref href
      | none => none
    else none)).toFinset

/-! ## Card-boundary ancestor search (`_find_result_card`) -/

/-- Prefix-at-any-position scan behind `strContains`. -/
def strContainsGo (sub : List Char) : List Char → Bool
  | [] => decide (sub = [])
  | l@(_ :: rest) => sub.isPrefixOf l || strContainsGo sub rest

/-- Python `lab in txt` (substring containment). -/
def strContains (s sub : String) : Bool :=
  strContainsGo sub.toList s.toList

/-- The five provisional-field labels checked by the apprenticeship card
confirmation. -/
def appCardLabels : List String :=
  ["Start date", "Training course", "Wage", "Closes", "Posted"]

/-- `NcsApprenticeshipClient._find_result_card`: climb at most 15 nodes
(the anchor and then its parents, given as the ancestor chain); return the
first whose reachable-ref set is exactly `{vacancy_ref}` and which is
confirmed by ≥ 2 recognised labels in its text or a plausible container
tag. -/
def appFindResultCardGo (vacancy_ref : String) :
    Nat → List HNode → Option HNode
  | 0, _ => none
  | _ + 1, [] => none
  | n + 1, node :: rest =>
      let refs := vacRefsInNode node
      if refs.Nonempty ∧ refs = {vacancy_ref} then
        let txt := getTextSpace node
        let hits := (appCardLabels.filter (fun lab => strContains txt lab)).length
        if 2 ≤ hits ∨ tagOf node ∈ ["article", "li", "section", "div"] then
          some node
        else appFindResultCardGo vacancy_ref n rest
      else appFindResultCardGo vacancy_ref n rest

def appFindResultCard (chain : List HNode) (vacancy_ref : String) :
    Option HNode :=
  appFindResultCardGo vacancy_ref 15 chain

/-- `DwpJobClient._find_result_card`: same climb, condition
`ids and ids == {job_id}` only. -/
def jobFindResultCardGo (job_id : String) : Nat → List HNode → Option HNode
  | 0, _ => none
  | _ + 1, [] => none
  | n + 1, node :: rest =>
      let ids := jobIdsInNode node
      if ids.Nonempty ∧ ids = {job_id} then some node
      else jobFindResultCardGo job_id n rest

def jobFindResultCard (chain : List HNode) (job_id : String) : Option HNode :=
  jobFindResultCardGo job_id 15 chain

/-! ## Anchors with ancestor chains, `find("main")` with path -/

mutual

/-- `a[href]` anchors of a subtree (self included), each paired with its
chain `anchor :: parent :: …` extending `path`. -/
def anchorChainsOf : HNode → List HNode → List (HNode × List HNode)
  | HNode.text _, _ => []
  | HNode.elem t a cs, path =>
      let self := HNode.elem t a cs
      (if t = "a" ∧ (attrOf self "href").isSome then [(self, self :: path)]
       else [])
        ++ anchorChainsIn cs (self :: path)

/-- All `a[href]` anchors of a forest in document order, each paired with
its chain `anchor :: parent :: …` extending `path` (the ancestors of the
forest's roots, nearest first). -/
def anchorChainsIn : List HNode → List HNode → List (HNode × List HNode)
  | [], _ => []
  | c :: rest, path => anchorChainsOf c path ++ anchorChainsIn rest path

end

mutual

/-- First element with the given tag in a subtree (pre-order, self first),
with its ancestor path. -/
def findTagInNode (t : String) : HNode → List HNode →
    Option (HNode × List HNode)
  | HNode.text _, _ => none
  | HNode.elem tg a cs, path =>
      let self := HNode.elem tg a cs
      if tg = t then some (self, path)
      else findTagWithPath t cs (self :: path)

/-- First element with the given tag in a forest (pre-order), with its
ancestor path — `soup.find(tag)` keeping the surrounding context for later
parent climbs. -/
def findTagWithPath (t : String) : List HNode → List HNode →
    Option (HNode × List HNode)
  | [], _ => none
  | c :: rest, path =>
      match findTagInNode t c path with
      | some r => some r
      | none => findTagWithPath t rest path

end

/-! ## URL joining (model of `urllib.parse.urljoin`) -/

/-- Split a character list at the first occurrence of `sub`, returning the
parts before and after it. -/
def breakAtSub (sub : List Char) : List Char → Option (List Char × List Char)
  | [] => if sub = [] then some ([], []) else none
  | l@(c :: rest) =>
      if sub.isPrefixOf l then some ([], l.drop sub.length)
      else
        match breakAtSub sub rest with
        | some (pre, post) => some (c :: pre, post)
        | none => none

/-- `scheme://host` part of an absolute URL (`""` when there is none). -/
def schemeHostOf (u : String) : String :=
  match breakAtSub "://".toList u.toList with
  | some (pre, post) =>
      (pre ++ "://".toList ++ post.takeWhile (· ≠ '/')).asString
  | none => ""

/-- Scheme of an absolute URL. -/
def schemeOf (u : String) : String :=
  match breakAtSub "://".toList u.toList with
  | some (pre, _) => pre.asString
  | none => ""

/-- Modelled behaviour of `urllib.parse.urljoin(base, rel)` for the URL
shapes the scrapers produce: empty, absolute `http(s)://…`,
scheme-relative `//…`, root-relative `/…`, and plain relative paths
(resolved against the base's directory). -/
def urljoinModel (base rel : String) : String :=
  if rel = "" then base
  else if pyStartsWith rel "http://" ∨ pyStartsWith rel "https://" then rel
  else if pyStartsWith rel "//" then schemeOf base ++ ":" ++ rel
  else if pyStartsWith rel "/" then schemeHostOf base ++ rel
  else
    let sh := schemeHostOf base
    let path := pyDrop (pyLen sh) base
    let dir := (path.toList.reverse.dropWhile (· ≠ '/')).reverse.asString
    if dir = "" then sh ++ "/" ++ rel else sh ++ dir ++ rel

/-! ## Apprenticeship listing extraction -/

/-- `UI_SKIP_LINES` from `apprenticeship/scrapper/ncs.py`. -/
def appUiSkipLines : List String :=
  ["skip to main content", "print", "contents", "summary", "work",
   "training", "requirements", "about this employer",
   "after this apprenticeship", "ask a question", "apply now", "account",
   "menu"]

/-- The character class of `PUNCT_ONLY_RE = ^[\s,.;:–—-]+$`. -/
def punctOnlyChars : List Char := [',', '.', ';', ':', '–', '—', '-']

/-- `PUNCT_ONLY_RE.match(ln)`. -/
def isPunctOnly (s : String) : Bool :=
  s ≠ "" && s.toList.all (fun c => pyIsSpace c || punctOnlyChars.contains c)

/-- `_lines(node)` from `apprenticeship/scrapper/ncs.py`:
`get_text("\n", strip=True)`, split into lines, strip each, drop empty,
punctuation-only and UI-chrome lines. -/
def appLinesOf (n : HNode) : List String :=
  ((strippedStrings n).flatMap pySplitlinesNl).filterMap (fun ln0 =>
    let ln := pyStrip ln0
    if ln = "" then none
    else if isPunctOnly ln then none
    else if appUiSkipLines.contains (pyStrip (pyLower ln)) then none
    else some ln)

/-- `BASE` of the apprenticeship scraper. -/
def appBase : String := "https://www.findapprenticeship.service.gov.uk"

/-- The per-anchor part of
`NcsApprenticeshipClient._extract_vacancies_from_list`: selector prefix,
`VACANCY_PATH_RE`, card search (dropping the item when no card is found),
then the provisional fields from the card's lines. -/
def appExtractFromAnchor (p : HNode × List HNode) : Option ListedVacancy :=
  match attrOf p.1 "href" with
  | none => none
  | some href =>
      if ¬ pyStartsWith href "/apprenticeship/" then none
      else
        match vacRefOfHref href with
        | none => none
        | some vacancy_ref =>
            let url := urljoinModel appBase href
            let title := clean (getTextSpace p.1)
            match appFindResultCard p.2 vacancy_ref with
            | none => none
            | some card =>
                let lines := appLinesOf card
                let emploc :=
                  if title ≠ "" ∧ title ∈ lines then
                    match lines.dropWhile (fun ln => ln ≠ title) with
                    | _ :: l1 :: l2 :: _ => (l1, l2)
                    | _ :: l1 :: _ => (l1, "")
                    | _ => ("", "")
                  else ("", "")
                let cp := lines.foldl (fun (acc : String × String) ln =>
                  let low := pyStrip (pyLower ln)
                  if pyStartsWith low "closes" then (ln, acc.2)
                  else if pyStartsWith low "posted" then (acc.1, ln)
                  else acc) ("", "")
                some { vacancy_ref := vacancy_ref, url := url, title := title,
                       employer_name := emploc.1,
                       location_summary := emploc.2,
                       start_date := appFindAfterLabel lines "Start date",
                       training_course :=
                         appFindAfterLabel lines "Training course",
                       wage := appFindAfterLabel lines "Wage",
                       closing_text := cp.1, posted_text := cp.2 }

/-- The final per-page dedup of `_extract_vacancies_from_list`
(keep the first occurrence of each `vacancy_ref`). -/
def dedupVacancies : List ListedVacancy → List String → List ListedVacancy
  | [], _ => []
  | v :: rest, seen =>
      if v.vacancy_ref ∈ seen then dedupVacancies rest seen
      else v :: dedupVacancies rest (v.vacancy_ref :: seen)

/-- The anchors scanned by `_extract_vacancies_from_list`
(`(soup.find("main") or soup).select(...)`), each with its ancestor chain
running through `main` up to the document root. -/
def appPageAnchors (page : HNode) : List (HNode × List HNode) :=
  let mainp :=
    match findTagWithPath "main" (childrenOf page) [page] with
    | some r => r
    | none => (page, [])
  anchorChainsIn (childrenOf mainp.1) (mainp.1 :: mainp.2)

/-- `NcsApprenticeshipClient._extract_vacancies_from_list`. -/
def appExtractVacancies (page : HNode) : List ListedVacancy :=
  dedupVacancies ((appPageAnchors page).filterMap appExtractFromAnchor) []

/-! ## Pagination -/

/-- `soup.find("main") or soup`. -/
def findMainOr (page : HNode) : HNode :=
  match findTagWithPath "main" (childrenOf page) [page] with
  | some r => r.1
  | none => page

/-- `main.select_one('a[rel="next"][href]')`. -/
def selectRelNext (main : HNode) : Option HNode :=
  (descendantsOf main).find? (fun a =>
    tagOf a == "a" && attrOf a "rel" == some "next" &&
      (attrOf a "href").isSome)

/-- The text-based fallback of the apprenticeship `_next_url`: the first
`a[href]` whose `clean(a.get_text()).lower()` starts with `"next"`. -/
def appTextNext (main : HNode) (current : String) : Option String :=
  match (descendantsOf main).find? (fun a =>
    tagOf a == "a" && (attrOf a "href").isSome &&
      pyStartsWith (pyLower (clean (rawText a))) "next") with
  | some a => some (urljoinModel current ((attrOf a "href").getD ""))
  | none => none

/-- `NcsApprenticeshipClient._next_url`. -/
def appNextUrl (page : HNode) (current : String) : Option String :=
  let main := findMainOr page
  match selectRelNext main with
  | some a => some (urljoinModel current ((attrOf a "href").getD ""))
  | none => appTextNext main current

/-- The text-based fallback of the job `_next_url` (uses
`get_text(" ", strip=True)`). -/
def jobTextNext (main : HNode) (current : String) : Option String :=
  match (descendantsOf main).find? (fun a =>
    tagOf a == "a" && (attrOf a "href").isSome &&
      pyStartsWith (pyLower (clean (getTextSpace a))) "next") with
  | some a => some (urljoinModel current ((attrOf a "href").getD ""))
  | none => none

/-- `DwpJobClient._next_url` (falls through to the text scan when the
rel=next anchor has an empty href: `if a and a.get("href")`). -/
def jobNextUrl (page : HNode) (current : String) : Option String :=
  let main := findMainOr page
  match selectRelNext main with
  | some a =>
      if (attrOf a "href").getD "" ≠ "" then
        some (urljoinModel current ((attrOf a "href").getD ""))
      else jobTextNext main current
  | none => jobTextNext main current

/-- The finite web a crawl runs against: URL → document. -/
def lookupWeb (web : List (String × HNode)) (u : String) : Option HNode :=
  match web.find? (fun p => p.1 = u) with
  | some p => some p.2
  | none => none

theorem length_filter_notMem_cons_lt (l : List String) (x : String)
    (s : List String) (hx : x ∈ l) (hs : x ∉ s) :
    (l.filter (fun u => ¬ u ∈ x :: s)).length <
      (l.filter (fun u => ¬ u ∈ s)).length := by
  induction l with
  | nil => cases hx
  | cons a l ih =>
      by_cases hax : a = x
      · subst hax
        have hmono : (l.filter (fun u => ¬ u ∈ a :: s)).length ≤
            (l.filter (fun u => ¬ u ∈ s)).length := by
          apply List.Sublist.length_le
          apply List.monotone_filter_right
          intro u hu
          simp only [decide_eq_true_eq] at hu ⊢
          intro hmem
          exact hu (List.mem_cons_of_mem _ hmem)
        have e1 : (a :: l).filter (fun u => ¬ u ∈ a :: s) =
            l.filter (fun u => ¬ u ∈ a :: s) :=
          List.filter_cons_of_neg (by simp)
        have e2 : (a :: l).filter (fun u => ¬ u ∈ s) =
            a :: l.filter (fun u => ¬ u ∈ s) :=
          List.filter_cons_of_pos (by simpa using hs)
        rw [e1, e2, List.length_cons]
        omega
      · have hx' : x ∈ l := by
          rcases List.mem_cons.mp hx with h | h
          · exact absurd h.symm hax
          · exact h
        by_cases hmem : a ∈ s
        · have e1 : (a :: l).filter (fun u => ¬ u ∈ x :: s) =
              l.filter (fun u => ¬ u ∈ x :: s) :=
            List.filter_cons_of_neg (by simp [hmem])
          have e2 : (a :: l).filter (fun u => ¬ u ∈ s) =
              l.filter (fun u => ¬ u ∈ s) :=
            List.filter_cons_of_neg (by simp [hmem])
          rw [e1, e2]
          exact ih hx'
        · have e1 : (a :: l).filter (fun u => ¬ u ∈ x :: s) =
              a :: l.filter (fun u => ¬ u ∈ x :: s) :=
            List.filter_cons_of_pos (by simp [hax, hmem])
          have e2 : (a :: l).filter (fun u => ¬ u ∈ s) =
              a :: l.filter (fun u => ¬ u ∈ s) :=
            List.filter_cons_of_pos (by simpa using hmem)
          rw [e1, e2, List.length_cons, List.length_cons]
          exact Nat.succ_lt_succ (ih hx')

/-- `iter_pages` (shared shape of both clients): fetch, yield, follow the
next link, stopping on a falsy URL, an already-visited URL (the seen-URL
cycle guard), or an unresolvable URL. -/
def iterPagesGo (next_url : HNode → String → Option String)
    (web : List (String × HNode)) (seen : List String) (url : String) :
    List (String × HNode) :=
  if h1 : url = "" ∨ url ∈ seen then []
  else
    match hw : lookupWeb web url with
    | none => []
    | some page =>
        (url, page) ::
          iterPagesGo next_url web (url :: seen) ((next_url page url).getD "")
termination_by ((web.map Prod.fst).filter (fun u => ¬ u ∈ seen)).length
decreasing_by
  push_neg at h1
  apply length_filter_notMem_cons_lt
  · have : (web.find? (fun p => p.1 = url)).isSome := by
      unfold lookupWeb at hw
      cases hf : web.find? (fun p => p.1 = url) with
      | none => rw [hf] at hw; cases hw
      | some p => simp
    obtain ⟨p, hp⟩ := Option.isSome_iff_exists.mp this
    have hmem := List.mem_of_find?_eq_some hp
    have hkey : p.1 = url := by
      have := List.find?_some hp
      simpa using this
    exact hkey ▸ List.mem_map_of_mem Prod.fst hmem
  · exact h1.2

def iterPages (next_url : HNode → String → Option String)
    (web : List (String × HNode)) (start : String) :
    List (String × HNode) :=
  iterPagesGo next_url web [] start

/-- `NcsApprenticeshipClient.iter_pages`. -/
def appIterPages (web : List (String × HNode)) (start : String) :
    List (String × HNode) :=
  iterPages appNextUrl web start

/-- `DwpJobClient.iter_pages`. -/
def jobIterPages (web : List (String × HNode)) (start : String) :
    List (String × HNode) :=
  iterPages jobNextUrl web start

/-- `NcsApprenticeshipClient.iter_all_vacancies`. -/
def appIterAllVacancies (web : List (String × HNode)) (start : String) :
    List ListedVacancy :=
  (appIterPages web start).flatMap (fun p => appExtractVacancies p.2)

/-! ## Claim C3 -/

theorem dedupVacancies_subset {l : List ListedVacancy} {seen : List String}
    {v : ListedVacancy} (h : v ∈ dedupVacancies l seen) : v ∈ l := by
  induction l generalizing seen with
  | nil => simpa [dedupVacancies] using h
  | cons a l ih =>
      simp only [dedupVacancies] at h
      split at h
      · exact List.mem_cons_of_mem _ (ih h)
      · rcases List.mem_cons.mp h with h' | h'
        · exact h' ▸ List.mem_cons_self _ _
        · exact List.mem_cons_of_mem _ (ih h')

theorem appFindResultCardGo_exact {vacancy_ref : String} :
    ∀ (fuel : Nat) (chain : List HNode) (card : HNode),
      appFindResultCardGo vacancy_ref fuel chain = some card →
      vacRefsInNode card = {vacancy_ref} := by
  intro fuel
  induction fuel with
  | zero =>
      intro chain card h
      simp [appFindResultCardGo] at h
  | succ n ih =>
      intro chain card h
      cases chain with
      | nil => simp [appFindResultCardGo] at h
      | cons node rest =>
          simp only [appFindResultCardGo] at h
          by_cases hc : (vacRefsInNode node).Nonempty ∧
              vacRefsInNode node = {vacancy_ref}
          · rw [if_pos hc] at h
            split at h
            · cases h
              exact hc.2
            · exact ih rest card h
          · rw [if_neg hc] at h
            exact ih rest card h

theorem jobFindResultCardGo_exact {job_id : String} :
    ∀ (fuel : Nat) (chain : List HNode) (card : HNode),
      jobFindResultCardGo job_id fuel chain = some card →
      jobIdsInNode card = {job_id} := by
  intro fuel
  induction fuel with
  | zero =>
      intro chain card h
      simp [jobFindResultCardGo] at h
  | succ n ih =>
      intro chain card h
      cases chain with
      | nil => simp [jobFindResultCardGo] at h
      | cons node rest =>
          simp only [jobFindResultCardGo] at h
          by_cases hc : (jobIdsInNode node).Nonempty ∧
              jobIdsInNode node = {job_id}
          · rw [if_pos hc] at h
            cases h
            exact hc.2
          · rw [if_neg hc] at h
            exact ih rest card h

theorem appExtractFromAnchor_card {p : HNode × List HNode}
    {v : ListedVacancy} (h : appExtractFromAnchor p = some v) :
    ∃ card, appFindResultCard p.2 v.vacancy_ref = some card ∧
      vacRefsInNode card = {v.vacancy_ref} := by
  unfold appExtractFromAnchor at h
  split at h
  · cases h
  · split at h
    · cases h
    · split at h
      · cases h
      · rename_i href hh ref href
        split at h
        · cases h
        · rename_i card hcard
          have hv : v.vacancy_ref = ref := by
            cases h
            rfl
          refine ⟨card, ?_, ?_⟩
          · rw [hv]
            exact hcard
          · rw [hv]
            exact appFindResultCardGo_exact 15 p.2 card hcard

/-- **C3**: the card-boundary ancestor search is exact or drops the item.
Whenever either vertical's `_find_result_card`, climbing the (at most 15)
nodes of the anchor's chain, returns a card, that card's reachable
identifier set is exactly `{ref}`; and every item yielded by the
apprenticeship listing extraction comes from an anchor whose card search
succeeded with such an exact card — anchors for which the search fails
within the depth bound yield nothing (and no error, extraction being
total). -/
theorem C3_card_boundary :
    (∀ (vacancy_ref : String) (chain : List HNode) (card : HNode),
      appFindResultCard chain vacancy_ref = some card →
      vacRefsInNode card = {vacancy_ref}) ∧
    (∀ (job_id : String) (chain : List HNode) (card : HNode),
      jobFindResultCard chain job_id = some card →
      jobIdsInNode card = {job_id}) ∧
    (∀ (page : HNode) (v : ListedVacancy), v ∈ appExtractVacancies page →
      ∃ p ∈ appPageAnchors page, ∃ card,
        appFindResultCard p.2 v.vacancy_ref = some card ∧
        vacRefsInNode card = {v.vacancy_ref}) := by
  refine ⟨?_, ?_, ?_⟩
  · intro vacancy_ref chain card h
    exact appFindResultCardGo_exact 15 chain card h
  · intro job_id chain card h
    exact jobFindResultCardGo_exact 15 chain card h
  · intro page v hv
    have hv' := dedupVacancies_subset hv
    obtain ⟨p, hp, hf⟩ := List.mem_filterMap.mp hv'
    obtain ⟨card, hcard, hexact⟩ := appExtractFromAnchor_card hf
    exact ⟨p, hp, card, hcard, hexact⟩

/-! ## A synthetic 3-page listing fixture -/

/-- One listing card: a result `<li>` with the vacancy link inside a
heading, followed by employer, town and closing lines. -/
def fxCard (ref title employer town : String) : HNode :=
  HNode.elem "li" []
    [HNode.elem "h2" []
      [HNode.elem "a" [("href", "/apprenticeship/" ++ ref)]
        [HNode.text title]],
     HNode.elem "p" [] [HNode.text employer],
     HNode.elem "p" [] [HNode.text town],
     HNode.elem "p" [] [HNode.text "Closes on 1 January 2026"]]

/-- One search-result page: a `<main>` with one card and, optionally, a
`rel="next"` pagination link. -/
def fxPage (card : HNode) (next : Option String) : HNode :=
  HNode.elem "html" []
    [HNode.elem "body" []
      [HNode.elem "main" []
        ([HNode.elem "ul" [] [card]] ++
          (match next with
           | some u =>
              [HNode.elem "a" [("rel", "next"), ("href", u)]
                [HNode.text "Next"]]
           | none => []))]]

def fxPage1 : HNode :=
  fxPage (fxCard "VAC1001" "Chef Apprentice" "Acme Kitchens" "Leeds")
    (some "https://ex/p2")

def fxPage2 : HNode :=
  fxPage (fxCard "VAC1002" "Joiner Apprentice" "Oak Works" "York")
    (some "https://ex/p3")

def fxPage3 : HNode :=
  fxPage (fxCard "VAC1003" "Baker Apprentice" "Crust Co" "Hull") none

/-- The fixture web: three pages, page 3 without a next link. -/
def fxWeb : List (String × HNode) :=
  [("https://ex/p1", fxPage1), ("https://ex/p2", fxPage2),
   ("https://ex/p3", fxPage3)]

def fxItem1 : ListedVacancy :=
  { vacancy_ref := "VAC1001",
    url := "https://www.findapprenticeship.service.gov.uk/apprenticeship/VAC1001",
    title := "Chef Apprentice", employer_name := "Acme Kitchens",
    location_summary := "Leeds", closing_text := "Closes on 1 January 2026" }

def fxItem2 : ListedVacancy :=
  { vacancy_ref := "VAC1002",
    url := "https://www.findapprenticeship.service.gov.uk/apprenticeship/VAC1002",
    title := "Joiner Apprentice", employer_name := "Oak Works",
    location_summary := "York", closing_text := "Closes on 1 January 2026" }

def fxItem3 : ListedVacancy :=
  { vacancy_ref := "VAC1003",
    url := "https://www.findapprenticeship.service.gov.uk/apprenticeship/VAC1003",
    title := "Baker Apprentice", employer_name := "Crust Co",
    location_summary := "Hull", closing_text := "Closes on 1 January 2026" }

example : appExtractVacancies fxPage1 = [fxItem1] := by decide
example : appNextUrl fxPage1 "https://ex/p1" = some "https://ex/p2" := by
  decide
example : appNextUrl fxPage3 "https://ex/p3" = none := by decide

/-! ## Claim C4 -/

theorem lookupWeb_mem {web : List (String × HNode)} {u : String}
    {page : HNode} (hw : lookupWeb web u = some page) :
    u ∈ web.map Prod.fst := by
  unfold lookupWeb at hw
  cases hf : web.find? (fun p => p.1 = u) with
  | none => rw [hf] at hw; cases hw
  | some p =>
      have hmem := List.mem_of_find?_eq_some hf
      have hkey : p.1 = u := by
        have := List.find?_some hf
        simpa using this
      exact hkey ▸ List.mem_map_of_mem Prod.fst hmem

theorem iterPagesGo_stop (next_url : HNode → String → Option String)
    (web : List (String × HNode)) (seen : List String) (url : String)
    (h : url = "" ∨ url ∈ seen) :
    iterPagesGo next_url web seen url = [] := by
  rw [iterPagesGo, dif_pos h]

theorem iterPagesGo_missing (next_url : HNode → String → Option String)
    (web : List (String × HNode)) (seen : List String) (url : String)
    (h1 : ¬(url = "" ∨ url ∈ seen)) (hw : lookupWeb web url = none) :
    iterPagesGo next_url web seen url = [] := by
  rw [iterPagesGo, dif_neg h1]
  split
  · rfl
  · rename_i page heq
    rw [hw] at heq
    cases heq

theorem iterPagesGo_cons (next_url : HNode → String → Option String)
    (web : List (String × HNode)) (seen : List String) (url : String)
    {page : HNode} (h1 : ¬(url = "" ∨ url ∈ seen))
    (hw : lookupWeb web url = some page) :
    iterPagesGo next_url web seen url =
      (url, page) ::
        iterPagesGo next_url web (url :: seen)
          ((next_url page url).getD "") := by
  rw [iterPagesGo, dif_neg h1]
  split
  · rename_i heq
    rw [hw] at heq
    cases heq
  · rename_i p heq
    rw [hw] at heq
    cases heq
    rfl

theorem iterPagesGo_fresh (next_url : HNode → String → Option String)
    (web : List (String × HNode)) :
    ∀ (n : Nat) (seen : List String) (url : String),
      ((web.map Prod.fst).filter (fun u => ¬ u ∈ seen)).length ≤ n →
      (((iterPagesGo next_url web seen url).map Prod.fst).Nodup ∧
       ∀ u ∈ (iterPagesGo next_url web seen url).map Prod.fst, u ∉ seen) := by
  intro n
  induction n with
  | zero =>
      intro seen url hb
      by_cases h1 : url = "" ∨ url ∈ seen
      · rw [iterPagesGo_stop next_url web seen url h1]
        exact ⟨List.nodup_nil, by simp⟩
      · cases hw : lookupWeb web url with
        | none =>
            rw [iterPagesGo_missing next_url web seen url h1 hw]
            exact ⟨List.nodup_nil, by simp⟩
        | some page =>
            exfalso
            push_neg at h1
            have hmem : url ∈ (web.map Prod.fst).filter
                (fun u => ¬ u ∈ seen) :=
              List.mem_filter.mpr ⟨lookupWeb_mem hw, by simpa using h1.2⟩
            have := List.ne_nil_of_mem hmem
            have := List.length_pos.mpr this
            omega
  | succ n ih =>
      intro seen url hb
      by_cases h1 : url = "" ∨ url ∈ seen
      · rw [iterPagesGo_stop next_url web seen url h1]
        exact ⟨List.nodup_nil, by simp⟩
      · cases hw : lookupWeb web url with
        | none =>
            rw [iterPagesGo_missing next_url web seen url h1 hw]
            exact ⟨List.nodup_nil, by simp⟩
        | some page =>
            rw [iterPagesGo_cons next_url web seen url h1 hw]
            push_neg at h1
            have hb' : ((web.map Prod.fst).filter
                (fun u => ¬ u ∈ url :: seen)).length ≤ n := by
              have hlt := length_filter_notMem_cons_lt (web.map Prod.fst)
                url seen (lookupWeb_mem hw) h1.2
              omega
            obtain ⟨hnd, hfresh⟩ := ih (url :: seen)
              ((next_url page url).getD "") hb'
            constructor
            · simp only [List.map_cons]
              exact List.nodup_cons.mpr
                ⟨fun hmem => (hfresh _ hmem) (List.mem_cons_self _ _), hnd⟩
            · intro u hu
              simp only [List.map_cons, List.mem_cons] at hu
              rcases hu with h | h
              · exact h ▸ h1.2
              · exact fun hus =>
                  (hfresh _ h) (List.mem_cons_of_mem _ hus)

/-- **C4**: pagination fetches every page URL at most once (the seen-URL
set guards against cycles and the iteration is a total function, so it
terminates on every finite web), and on the synthetic 3-page fixture whose
third page has no next link, the crawl fetches exactly the three page URLs
in order and yields exactly one item from each of the three pages. -/
theorem C4_pagination_termination :
    (∀ (next_url : HNode → String → Option String)
       (web : List (String × HNode)) (start : String),
      ((iterPages next_url web start).map Prod.fst).Nodup) ∧
    (appIterPages fxWeb "https://ex/p1").map Prod.fst =
      ["https://ex/p1", "https://ex/p2", "https://ex/p3"] ∧
    appIterAllVacancies fxWeb "https://ex/p1" =
      [fxItem1, fxItem2, fxItem3] ∧
    appExtractVacancies fxPage1 = [fxItem1] ∧
    appExtractVacancies fxPage2 = [fxItem2] ∧
    appExtractVacancies fxPage3 = [fxItem3] := by
  have hinit : ∀ (next_url : HNode → String → Option String)
      (web : List (String × HNode)) (start : String),
      ((iterPages next_url web start).map Prod.fst).Nodup := by
    intro next_url web start
    exact (iterPagesGo_fresh next_url web (web.map Prod.fst).length []
      start (by simpa using List.length_filter_le _ _)).1
  have n1 : appNextUrl fxPage1 "https://ex/p1" = some "https://ex/p2" := by
    decide
  have n2 : appNextUrl fxPage2 "https://ex/p2" = some "https://ex/p3" := by
    decide
  have n3 : appNextUrl fxPage3 "https://ex/p3" = none := by decide
  have e1 := iterPagesGo_cons appNextUrl fxWeb [] "https://ex/p1"
    (by decide) (show lookupWeb fxWeb "https://ex/p1" = some fxPage1 from rfl)
  rw [n1] at e1
  have e2 := iterPagesGo_cons appNextUrl fxWeb ["https://ex/p1"]
    "https://ex/p2" (by decide)
    (show lookupWeb fxWeb "https://ex/p2" = some fxPage2 from rfl)
  rw [n2] at e2
  have e3 := iterPagesGo_cons appNextUrl fxWeb
    ["https://ex/p2", "https://ex/p1"] "https://ex/p3" (by decide)
    (show lookupWeb fxWeb "https://ex/p3" = some fxPage3 from rfl)
  rw [n3] at e3
  have e4 := iterPagesGo_stop appNextUrl fxWeb
    ["https://ex/p3", "https://ex/p2", "https://ex/p1"] "" (Or.inl rfl)
  simp only [Option.getD_some, Option.getD_none] at e1 e2 e3
  have epages : appIterPages fxWeb "https://ex/p1" =
      [("https://ex/p1", fxPage1), ("https://ex/p2", fxPage2),
       ("https://ex/p3", fxPage3)] := by
    unfold appIterPages iterPages
    rw [e1, e2, e3, e4]
  refine ⟨hinit, ?_, ?_, by decide, by decide, by decide⟩
  · rw [epages]
    rfl
  · unfold appIterAllVacancies
    rw [epages]
    decide

/-- Witness for C3: the exactness statement applied to a concrete
anchor-and-ancestors chain on which the card search succeeds at the `li`. -/
theorem C3_witness :
    vacRefsInNode
      (HNode.elem "li" []
        [HNode.elem "a" [("href", "/apprenticeship/VAC7")] []]) =
      {"VAC7"} :=
  C3_card_boundary.1 "VAC7"
    [HNode.elem "a" [("href", "/apprenticeship/VAC7")] [],
     HNode.elem "li" []
       [HNode.elem "a" [("href", "/apprenticeship/VAC7")] []]]
    (HNode.elem "li" []
      [HNode.elem "a" [("href", "/apprenticeship/VAC7")] []])
    rfl

/-! ## Audit log and per-item processing -/

/-- One `ApprenticeshipScrapeLog` / `JobScrapeLog` row (`ref` holds
`vacancy_ref` resp. `job_id`; `keyword` holds the subcategory). -/
structure LogEntry where
  run_id : Nat
  category : String
  keyword : String
  start_url : String
  ref : String
  status : String
  message : String
deriving DecidableEq, Repr

/-- Outcome of processing one listed item: returned status, the store
after the item's writes, the audit rows appended (in order), and whether
the enrichment (image) call was made. -/
structure ProcOut where
  status : String
  store : String → Option AppEntity
  logs : List LogEntry
  enrichInvoked : Bool

/-- The image-generation block of `Command._process_one` (the inner
`try`): invoked only when images are enabled and the freshly upserted row's
image is absent or a refresh was requested and a title is available; a
failure is recorded as an `image_error` row; a successful, different URL is
saved onto the row. -/
def appImageStep (store1 : String → Option AppEntity)
    (listed : ListedVacancy) (enrich : Except String String) (run_id : Nat)
    (category keyword start_url : String)
    (no_images refresh_images image_field : Bool) :
    (String → Option AppEntity) × List LogEntry × Bool :=
  if ¬ no_images ∧ image_field then
    match store1 listed.vacancy_ref with
    | none => (store1, [], false)
    | some obj =>
        let existing_url := pyStrip (obj.content "image_url")
        if refresh_images ∨ existing_url = "" then
          let title_for_img := pyStrip
            (if obj.content "title" ≠ "" then obj.content "title"
             else listed.title)
          if title_for_img ≠ "" then
            match enrich with
            | Except.ok cloud0 =>
                let cloud := pyStrip cloud0
                if cloud ≠ "" ∧ cloud ≠ existing_url then
                  (updateStore store1 listed.vacancy_ref
                    { obj with content :=
                        setField obj.content "image_url" cloud },
                   [], true)
                else (store1, [], true)
            | Except.error e =>
                (store1,
                 [⟨run_id, category, keyword, start_url,
                   listed.vacancy_ref, "image_error", e⟩],
                 true)
          else (store1, [], false)
        else (store1, [], false)
  else (store1, [], false)

/-- `Command._process_one` from `scrape_apprenticeship.py`.  The detail
fetch and the image generation are oracles: `scrape` is the outcome of
`client.scrape_vacancy_detail` (exception message or details dict), and
`enrich` the outcome of `generate_apprenticeship_image_and_upload` if it
gets called. -/
def appProcessOne (store : String → Option AppEntity)
    (listed : ListedVacancy) (scrape : Except String (String → String))
    (enrich : Except String String) (run_id now : Nat)
    (category keyword start_url : String)
    (no_images refresh_images image_field : Bool) : ProcOut :=
  match scrape with
  | Except.error e =>
      { status := "error", store := store,
        logs := [⟨run_id, category, keyword, start_url, listed.vacancy_ref,
                  "error", e⟩],
        enrichInvoked := false }
  | Except.ok details =>
      let merged := appMergeDetails details listed
      let r := app_upsert_smart store listed.vacancy_ref listed.url merged
        category keyword run_id now
      let store1 := updateStore store listed.vacancy_ref r.entity
      let img := appImageStep store1 listed enrich run_id category keyword
        start_url no_images refresh_images image_field
      { status := r.status, store := img.1,
        logs := img.2.1 ++
          [⟨run_id, category, keyword, start_url, listed.vacancy_ref,
            r.status, r.message⟩],
        enrichInvoked := img.2.2 }

/-- The `DwpJob` model columns (`_model_field_names(DwpJob)`). -/
def jobModelFields : List String :=
  ["id", "job_id", "category", "subcategory", "job_url", "apply_url",
   "image_url", "title", "company", "location", "posting_date",
   "closing_date", "hours", "job_type", "job_reference", "salary",
   "remote_working", "additional_salary_information",
   "disability_confident", "listing_snippet", "summary_intro",
   "summary_bullets", "what_youll_do", "skills_youll_need", "raw_text",
   "scraped_at", "last_checked_at", "last_scrape_status",
   "last_scrape_message", "last_scrape_run_id"]

/-- The keys of the dict returned by `scrape_job_detail`, in insertion
order. -/
def jobDetailKeys : List String :=
  ["title", "apply_url", "posting_date", "hours", "closing_date",
   "location", "company", "job_type", "job_reference", "salary",
   "remote_working", "additional_salary_information",
   "disability_confident", "listing_snippet", "summary_intro",
   "summary_bullets", "what_youll_do", "skills_youll_need", "raw_text"]

/-- `safe_vals = {k: v for k, v in merged.items() if k in job_fields}`:
the merged dict's keys (detail keys, then the appended
`job_url`/`category`/`subcategory`) filtered to model columns. -/
def jobSafeVals (merged : String → String) : List (String × String) :=
  ((jobDetailKeys ++ ["job_url", "category", "subcategory"]).filter
    (fun k => jobModelFields.contains k)).map (fun k => (k, merged k))

/-- The per-item body of the job `Command.handle` (merge, safe_vals,
inline upsert with the image step, audit rows).  `scrape` is the outcome of
`client.scrape_job_detail`, `enrich` of `generate_and_upload_job_image`. -/
def jobProcessOne (store : String → Option AppEntity) (listed : ListedJob)
    (scrape : Except String (String → String))
    (enrich : Except String String) (run_id now : Nat)
    (category subcategory start_url : String)
    (no_images image_field : Bool) : ProcOut :=
  match scrape with
  | Except.error e =>
      { status := "error", store := store,
        logs := [⟨run_id, category, subcategory, start_url, listed.job_id,
                  "error", e⟩],
        enrichInvoked := false }
  | Except.ok details =>
      let merged := jobBuildMerged details listed category subcategory
      let sv := jobSafeVals merged
      let title_for_img := pyStrip
        (if lookupD sv "title" "" ≠ "" then lookupD sv "title" ""
         else listed.title)
      let invoked := ¬ no_images ∧ image_field ∧ title_for_img ≠ ""
      let img : Option String :=
        if invoked then
          match enrich with
          | Except.ok u => some u
          | Except.error _ => none
        else none
      let imgLogs : List LogEntry :=
        if invoked then
          match enrich with
          | Except.error e =>
              [⟨run_id, category, subcategory, start_url, listed.job_id,
                "image_error", e⟩]
          | Except.ok _ => []
        else []
      let r := jobUpsertCore store listed.job_id sv category subcategory img
        run_id now
      { status := r.status,
        store := updateStore store listed.job_id r.entity,
        logs := imgLogs ++
          [⟨run_id, category, subcategory, start_url, listed.job_id,
            r.status, ""⟩],
        enrichInvoked := if invoked then true else false }

/-! ## Status and log-shape lemmas -/

/-- Terminal audit statuses (exactly one per processed item). -/
def isTerminal (s : String) : Bool :=
  s = "created" || s = "updated" || s = "skipped" || s = "error"

theorem app_upsert_status_cases (store : String → Option AppEntity)
    (ref url : String) (data : String → String) (cat sub : String)
    (rid now : Nat) :
    (app_upsert_smart store ref url data cat sub rid now).status = "created" ∨
    (app_upsert_smart store ref url data cat sub rid now).status = "skipped" ∨
    (app_upsert_smart store ref url data cat sub rid now).status =
      "updated" := by
  cases hs : store ref with
  | none => left; simp [app_upsert_smart, hs]
  | some obj =>
      simp only [app_upsert_smart, hs]
      split_ifs <;> simp

theorem jobUpsert_status_cases (store : String → Option AppEntity)
    (job_id : String) (sv : List (String × String)) (cat sub : String)
    (img : Option String) (rid now : Nat) :
    (jobUpsertCore store job_id sv cat sub img rid now).status = "created" ∨
    (jobUpsertCore store job_id sv cat sub img rid now).status = "skipped" ∨
    (jobUpsertCore store job_id sv cat sub img rid now).status =
      "updated" := by
  cases hs : store job_id with
  | none => left; simp [jobUpsertCore, hs]
  | some obj =>
      simp only [jobUpsertCore, hs]
      split_ifs <;> simp

theorem appImageStep_invoked {store1 : String → Option AppEntity}
    {listed : ListedVacancy} {enrich : Except String String} {run_id : Nat}
    {category keyword start_url : String}
    {no_images refresh_images image_field : Bool}
    (h : (appImageStep store1 listed enrich run_id category keyword
      start_url no_images refresh_images image_field).2.2 = true) :
    ∃ obj, store1 listed.vacancy_ref = some obj ∧
      (refresh_images = true ∨ pyStrip (obj.content "image_url") = "") := by
  unfold appImageStep at h
  by_cases h1 : ¬ no_images = true ∧ image_field = true
  · rw [if_pos h1] at h
    cases hobj : store1 listed.vacancy_ref with
    | none => simp [hobj] at h
    | some obj =>
        simp only [hobj] at h
        refine ⟨obj, rfl, ?_⟩
        by_cases h2 : refresh_images = true ∨
            pyStrip (obj.content "image_url") = ""
        · exact h2
        · rw [if_neg h2] at h
          simp at h
  · rw [if_neg h1] at h
    simp at h

theorem appImageStep_logs_shape (store1 : String → Option AppEntity)
    (listed : ListedVacancy) (enrich : Except String String) (run_id : Nat)
    (category keyword start_url : String)
    (no_images refresh_images image_field : Bool) :
    (∀ l ∈ (appImageStep store1 listed enrich run_id category keyword
        start_url no_images refresh_images image_field).2.1,
      l.status = "image_error" ∧ l.ref = listed.vacancy_ref) ∧
    (appImageStep store1 listed enrich run_id category keyword start_url
      no_images refresh_images image_field).2.1.length ≤ 1 := by
  unfold appImageStep
  split_ifs with h1
  · cases hobj : store1 listed.vacancy_ref with
    | none => simp
    | some obj =>
        dsimp only
        cases enrich with
        | ok u =>
            dsimp only
            split_ifs <;> simp
        | error e =>
            dsimp only
            split_ifs <;> simp
  · simp

theorem appImageStep_error_logs {store1 : String → Option AppEntity}
    {listed : ListedVacancy} {msg : String} {run_id : Nat}
    {category keyword start_url : String}
    {no_images refresh_images image_field : Bool}
    (h : (appImageStep store1 listed (Except.error msg) run_id category
      keyword start_url no_images refresh_images image_field).2.2 = true) :
    (appImageStep store1 listed (Except.error msg) run_id category keyword
      start_url no_images refresh_images image_field).2.1 =
      [⟨run_id, category, keyword, start_url, listed.vacancy_ref,
        "image_error", msg⟩] := by
  unfold appImageStep at h ⊢
  by_cases h1 : ¬ no_images = true ∧ image_field = true
  · rw [if_pos h1] at h ⊢
    cases hobj : store1 listed.vacancy_ref with
    | none => simp [hobj] at h
    | some obj =>
        simp only [hobj] at h ⊢
        split_ifs at h ⊢ <;> simp_all
  · rw [if_neg h1] at h
    simp at h

theorem logs_sandwich {X : List LogEntry} {t : LogEntry} {r0 : String}
    (hX : ∀ l ∈ X, l.status = "image_error" ∧ l.ref = r0)
    (hXlen : X.length ≤ 1)
    (ht : isTerminal t.status = true)
    (hti : ¬ t.status = "image_error")
    (htr : t.ref = r0) :
    ((X ++ [t]).filter (fun l => isTerminal l.status)).map
      (fun l => l.ref) = [r0] ∧
    ((X ++ [t]).filter (fun l => l.status = "image_error")).length ≤ 1 ∧
    ∀ l ∈ X ++ [t], l.ref = r0 := by
  have hfT : List.filter (fun l => isTerminal l.status) [t] = [t] := by
    rw [List.filter_cons_of_pos (by exact ht), List.filter_nil]
  have hfI : List.filter (fun l => decide (l.status = "image_error")) [t]
      = [] := by
    rw [List.filter_cons_of_neg (by simpa using hti), List.filter_nil]
  cases X with
  | nil =>
      refine ⟨?_, ?_, ?_⟩
      · rw [List.nil_append, hfT]
        simp [htr]
      · rw [List.nil_append]
        rw [show List.filter (fun l => decide (l.status = "image_error")) [t]
          = [] from hfI]
        simp
      · intro l hl
        rw [List.nil_append, List.mem_singleton] at hl
        exact hl ▸ htr
  | cons x xs =>
      cases xs with
      | nil =>
          obtain ⟨hs, hr⟩ := hX x (List.mem_cons_self _ _)
          have hxT : isTerminal x.status = false := by
            rw [hs]
            decide
          refine ⟨?_, ?_, ?_⟩
          · rw [List.singleton_append,
              List.filter_cons_of_neg (by simp [hxT]), hfT]
            simp [htr]
          · rw [List.singleton_append,
              List.filter_cons_of_pos (by simp [hs])]
            rw [show List.filter
              (fun l => decide (l.status = "image_error")) [t] = [] from hfI]
            simp
          · intro l hl
            rw [List.singleton_append] at hl
            rcases List.mem_cons.mp hl with h | h
            · exact h ▸ hr
            · rw [List.mem_singleton] at h
              exact h ▸ htr
      | cons y ys => simp at hXlen

theorem appProcessOne_logs (store : String → Option AppEntity)
    (listed : ListedVacancy) (scrape : Except String (String → String))
    (enrich : Except String String) (run_id now : Nat)
    (category keyword start_url : String)
    (no_images refresh_images image_field : Bool) :
    (((appProcessOne store listed scrape enrich run_id now category keyword
        start_url no_images refresh_images image_field).logs.filter
        (fun l => isTerminal l.status)).map (fun l => l.ref) =
      [listed.vacancy_ref]) ∧
    ((appProcessOne store listed scrape enrich run_id now category keyword
        start_url no_images refresh_images image_field).logs.filter
        (fun l => l.status = "image_error")).length ≤ 1 ∧
    ∀ l ∈ (appProcessOne store listed scrape enrich run_id now category
        keyword start_url no_images refresh_images image_field).logs,
      l.ref = listed.vacancy_ref := by
  cases scrape with
  | error e =>
      refine ⟨?_, ?_, ?_⟩ <;> simp [appProcessOne, isTerminal]
  | ok details =>
      simp only [appProcessOne]
      have hst := app_upsert_status_cases store listed.vacancy_ref
        listed.url (appMergeDetails details listed) category keyword run_id
        now
      have hshape := appImageStep_logs_shape
        (updateStore store listed.vacancy_ref
          (app_upsert_smart store listed.vacancy_ref listed.url
            (appMergeDetails details listed) category keyword run_id
            now).entity)
        listed enrich run_id category keyword start_url no_images
        refresh_images image_field
      refine logs_sandwich hshape.1 hshape.2 ?_ ?_ rfl
      · dsimp only
        rcases hst with h | h | h <;> rw [h] <;> decide
      · dsimp only
        rcases hst with h | h | h <;> rw [h] <;> decide

theorem jobProcessOne_logs (store : String → Option AppEntity)
    (listed : ListedJob) (scrape : Except String (String → String))
    (enrich : Except String String) (run_id now : Nat)
    (category subcategory start_url : String)
    (no_images image_field : Bool) :
    (((jobProcessOne store listed scrape enrich run_id now category
        subcategory start_url no_images image_field).logs.filter
        (fun l => isTerminal l.status)).map (fun l => l.ref) =
      [listed.job_id]) ∧
    ((jobProcessOne store listed scrape enrich run_id now category
        subcategory start_url no_images image_field).logs.filter
        (fun l => l.status = "image_error")).length ≤ 1 ∧
    ∀ l ∈ (jobProcessOne store listed scrape enrich run_id now category
        subcategory start_url no_images image_field).logs,
      l.ref = listed.job_id := by
  cases scrape with
  | error e =>
      refine ⟨?_, ?_, ?_⟩ <;> simp [jobProcessOne, isTerminal]
  | ok details =>
      simp only [jobProcessOne]
      have hst := jobUpsert_status_cases store listed.job_id
        (jobSafeVals (jobBuildMerged details listed category subcategory))
        category subcategory
        (if ¬ no_images = true ∧ image_field = true ∧
            pyStrip (if lookupD (jobSafeVals (jobBuildMerged details listed
              category subcategory)) "title" "" ≠ "" then
              lookupD (jobSafeVals (jobBuildMerged details listed category
                subcategory)) "title" "" else listed.title) ≠ "" then
          match enrich with
          | Except.ok u => some u
          | Except.error _ => none
        else none) run_id now
      have hXshape : (∀ l ∈ (if ¬ no_images = true ∧ image_field = true ∧
            pyStrip (if lookupD (jobSafeVals (jobBuildMerged details listed
              category subcategory)) "title" "" ≠ "" then
              lookupD (jobSafeVals (jobBuildMerged details listed category
                subcategory)) "title" "" else listed.title) ≠ "" then
          match enrich with
          | Except.error e =>
              [(⟨run_id, category, subcategory, start_url, listed.job_id,
                "image_error", e⟩ : LogEntry)]
          | Except.ok _ => []
        else []),
          l.status = "image_error" ∧ l.ref = listed.job_id) ∧
        (if ¬ no_images = true ∧ image_field = true ∧
            pyStrip (if lookupD (jobSafeVals (jobBuildMerged details listed
              category subcategory)) "title" "" ≠ "" then
              lookupD (jobSafeVals (jobBuildMerged details listed category
                subcategory)) "title" "" else listed.title) ≠ "" then
          match enrich with
          | Except.error e =>
              [(⟨run_id, category, subcategory, start_url, listed.job_id,
                "image_error", e⟩ : LogEntry)]
          | Except.ok _ => []
        else []).length ≤ 1 := by
        split_ifs <;> cases enrich <;> exact ⟨by simp, by simp⟩
      refine logs_sandwich hXshape.1 hXshape.2 ?_ ?_ rfl
      · dsimp only
        rcases hst with h | h | h <;> rw [h] <;> decide
      · dsimp only
        rcases hst with h | h | h <;> rw [h] <;> decide

/-! ## Claim C6 -/

/-- **C6** (amended): enrichment isolation.  Apprenticeship: the image hook
runs only when the (freshly upserted) row's image field is blank or a
refresh was requested; the item's status never depends on the enrichment
outcome; and a failing enrichment adds exactly one separate `image_error`
row before the item's unchanged terminal row.  Job: the hook is *not*
guarded by the stored image (it runs on every scrape while images are
enabled and a title is available — see the counterexample), but a failing
enrichment still leaves the status exactly as if images were disabled, and
adds exactly one `image_error` row before the terminal row. -/
theorem C6_enrichment_isolation :
    (∀ (store : String → Option AppEntity) (listed : ListedVacancy)
        (details : String → String) (enrich : Except String String)
        (run_id now : Nat) (category keyword start_url : String)
        (no_images refresh_images image_field : Bool),
      (appProcessOne store listed (Except.ok details) enrich run_id now
        category keyword start_url no_images refresh_images
        image_field).enrichInvoked = true →
      (refresh_images = true ∨
        pyStrip ((app_upsert_smart store listed.vacancy_ref listed.url
          (appMergeDetails details listed) category keyword run_id
          now).entity.content "image_url") = ""))
    ∧
    (∀ (store : String → Option AppEntity) (listed : ListedVacancy)
        (scrape : Except String (String → String))
        (e1 e2 : Except String String) (run_id now : Nat)
        (category keyword start_url : String)
        (no_images refresh_images image_field : Bool),
      (appProcessOne store listed scrape e1 run_id now category keyword
        start_url no_images refresh_images image_field).status =
      (appProcessOne store listed scrape e2 run_id now category keyword
        start_url no_images refresh_images image_field).status)
    ∧
    (∀ (store : String → Option AppEntity) (listed : ListedVacancy)
        (details : String → String) (msg : String) (run_id now : Nat)
        (category keyword start_url : String)
        (no_images refresh_images image_field : Bool),
      (appProcessOne store listed (Except.ok details) (Except.error msg)
        run_id now category keyword start_url no_images refresh_images
        image_field).enrichInvoked = true →
      (appProcessOne store listed (Except.ok details) (Except.error msg)
        run_id now category keyword start_url no_images refresh_images
        image_field).logs =
        [⟨run_id, category, keyword, start_url, listed.vacancy_ref,
          "image_error", msg⟩,
         ⟨run_id, category, keyword, start_url, listed.vacancy_ref,
          (app_upsert_smart store listed.vacancy_ref listed.url
            (appMergeDetails details listed) category keyword run_id
            now).status,
          (app_upsert_smart store listed.vacancy_ref listed.url
            (appMergeDetails details listed) category keyword run_id
            now).message⟩])
    ∧
    (∀ (store : String → Option AppEntity) (listed : ListedJob)
        (scrape : Except String (String → String))
        (enrich' : Except String String) (msg : String) (run_id now : Nat)
        (category subcategory start_url : String) (image_field : Bool),
      (jobProcessOne store listed scrape (Except.error msg) run_id now
        category subcategory start_url false image_field).status =
      (jobProcessOne store listed scrape enrich' run_id now category
        subcategory start_url true image_field).status)
    ∧
    (∀ (store : String → Option AppEntity) (listed : ListedJob)
        (details : String → String) (msg : String) (run_id now : Nat)
        (category subcategory start_url : String) (image_field : Bool),
      (jobProcessOne store listed (Except.ok details) (Except.error msg)
        run_id now category subcategory start_url false
        image_field).enrichInvoked = true →
      ((jobProcessOne store listed (Except.ok details) (Except.error msg)
        run_id now category subcategory start_url false
        image_field).logs.filter
          (fun l => l.status = "image_error")).length = 1) := by
  refine ⟨?_, ?_, ?_, ?_, ?_⟩
  · intro store listed details enrich run_id now category keyword start_url
      no_images refresh_images image_field h
    simp only [appProcessOne] at h
    obtain ⟨obj, hobj, hcond⟩ := appImageStep_invoked h
    simp only [updateStore, if_pos] at hobj
    cases hobj
    exact hcond
  · intro store listed scrape e1 e2 run_id now category keyword start_url
      no_images refresh_images image_field
    cases scrape with
    | error e => rfl
    | ok details => rfl
  · intro store listed details msg run_id now category keyword start_url
      no_images refresh_images image_field h
    simp only [appProcessOne] at h ⊢
    rw [appImageStep_error_logs h]
    rfl
  · intro store listed scrape enrich' msg run_id now category subcategory
      start_url image_field
    cases scrape with
    | error e => rfl
    | ok details =>
        simp only [jobProcessOne]
        simp [ite_self]
  · intro store listed details msg run_id now category subcategory
      start_url image_field h
    simp only [jobProcessOne] at h ⊢
    by_cases hinv : ¬ false = true ∧ image_field = true ∧
        pyStrip (if lookupD (jobSafeVals (jobBuildMerged details listed
          category subcategory)) "title" "" ≠ "" then
          lookupD (jobSafeVals (jobBuildMerged details listed category
            subcategory)) "title" "" else listed.title) ≠ ""
    · rw [if_pos hinv]
      have hst := jobUpsert_status_cases store listed.job_id
        (jobSafeVals (jobBuildMerged details listed category subcategory))
        category subcategory none run_id now
      rcases hst with hs | hs | hs <;>
        simp [List.filter_cons, hs]
    · rw [if_neg hinv] at h
      simp at h

/-- A stored job row whose image field is already populated. -/
def fxC6Entity : AppEntity :=
  { content := fun k =>
      if k = "image_url" then "http://old.png"
      else if k = "job_id" then "J1"
      else if k = "title" then "Engineer" else "",
    last_checked_at := 0, last_scrape_run_id := 0,
    last_scrape_status := "created", last_scrape_message := "" }

/-- Store holding exactly the row `fxC6Entity` under key `"J1"`. -/
def fxC6Store : String → Option AppEntity :=
  fun r => if r = "J1" then some fxC6Entity else none

/-- A listing stub for the stored job. -/
def fxC6Listed : ListedJob :=
  { job_id := "J1", url := "http://u", title := "Engineer" }

/-- A listing stub for a fresh apprenticeship vacancy. -/
def fxC6Vac : ListedVacancy :=
  { vacancy_ref := "V1", url := "http://v", title := "T" }

/-- **C6 counterexample**: the job vertical's image hook is *not* guarded
by the stored image.  The row `"J1"` is already stored with the non-blank
image URL `"http://old.png"`, no refresh option even exists in the job
command, and yet re-processing the listing invokes the image generator. -/
theorem C6_counterexample :
    pyStrip (fxC6Entity.content "image_url") ≠ "" ∧
    fxC6Store fxC6Listed.job_id = some fxC6Entity ∧
    (jobProcessOne fxC6Store fxC6Listed (Except.ok (fun _ => ""))
      (Except.ok "http://new.png") 1 2 "Cat" "Sub" "http://s" false
      true).enrichInvoked = true := by
  refine ⟨by decide, rfl, by decide⟩

/-- **C6 witness**: the apprenticeship failure-logging clause of
`C6_enrichment_isolation` at a concrete input — a fresh vacancy whose
enrichment call fails with `"boom"` gets exactly one `image_error` row
followed by its unchanged `created` terminal row. -/
theorem C6_witness :
    (appProcessOne (fun _ => none) fxC6Vac (Except.ok (fun _ => ""))
      (Except.error "boom") 1 2 "C" "K" "S" false false
      true).enrichInvoked = true ∧
    (appProcessOne (fun _ => none) fxC6Vac (Except.ok (fun _ => ""))
      (Except.error "boom") 1 2 "C" "K" "S" false false true).logs =
      [⟨1, "C", "K", "S", "V1", "image_error", "boom"⟩,
       ⟨1, "C", "K", "S", "V1", "created", ""⟩] := by
  have h : (appProcessOne (fun _ => none) fxC6Vac
      (Except.ok (fun _ => "")) (Except.error "boom") 1 2 "C" "K" "S"
      false false true).enrichInvoked = true := by decide
  refine ⟨h, ?_⟩
  rw [C6_enrichment_isolation.2.2.1 (fun _ => none) fxC6Vac (fun _ => "")
    "boom" 1 2 "C" "K" "S" false false true h]
  decide

/-! ## The run loop (`Command.handle` in both commands) -/

/-- Accumulated run state: the store, the audit-log table (append-only),
the run-wide seen-identifier set (`seen_refs` / `seen_job_ids`, as the
list of identifiers in insertion order), the identifiers yielded by the
crawls so far, and the four counters. -/
structure RunAcc where
  store : String → Option AppEntity
  logs : List LogEntry
  seen : List String
  yielded : List String
  created : Nat
  updated : Nat
  skipped : Nat
  errors : Nat

/-- `should_stop(): (max_rows > 0) and ((created + updated) >= max_rows)`. -/
def shouldStop (max_rows : Nat) (acc : RunAcc) : Bool :=
  if 0 < max_rows ∧ max_rows ≤ acc.created + acc.updated then true else false

/-- Fold one processed item's outcome into the run state (store update,
log append, counter bump — `error` counts everything non-terminal-good,
matching the `except` branch). -/
def tally (acc : RunAcc) (out : ProcOut) : RunAcc :=
  { acc with
    store := out.store,
    logs := acc.logs ++ out.logs,
    created := acc.created + (if out.status = "created" then 1 else 0),
    updated := acc.updated + (if out.status = "updated" then 1 else 0),
    skipped := acc.skipped + (if out.status = "skipped" then 1 else 0),
    errors := acc.errors +
      (if out.status = "created" ∨ out.status = "updated" ∨
          out.status = "skipped" then 0 else 1) }

/-- The inner `for listed in client.iter_all_...(start_url)` loop: each
yielded item is recorded, then the stop check (`break`), then the run-wide
dedup (`continue`), then `seen.add` and the per-item body. -/
def runItems {α : Type} (rf : α → String)
    (process : (String → Option AppEntity) → α → ProcOut)
    (max_rows : Nat) : RunAcc → List α → RunAcc
  | acc, [] => acc
  | acc, item :: rest =>
      let acc1 : RunAcc := { acc with yielded := acc.yielded ++ [rf item] }
      if shouldStop max_rows acc1 then acc1
      else if rf item ∈ acc1.seen then runItems rf process max_rows acc1 rest
      else
        let acc2 : RunAcc := { acc1 with seen := acc1.seen ++ [rf item] }
        runItems rf process max_rows
          (tally acc2 (process acc2.store item)) rest

/-- One category/keyword (resp. category/subcategory) query: its labels,
its start URL, and the items its crawl yields. -/
structure RunQuery (α : Type) where
  category : String
  keyword : String
  start_url : String
  items : List α

/-- The outer loops over categories and keywords/subcategories, with the
stop check at each level. -/
def runQueries {α : Type} (rf : α → String)
    (process : (String → Option AppEntity) → String → String → String →
      α → ProcOut)
    (max_rows : Nat) : RunAcc → List (RunQuery α) → RunAcc
  | acc, [] => acc
  | acc, q :: rest =>
      if shouldStop max_rows acc then acc
      else runQueries rf process max_rows
        (runItems rf (fun st it =>
          process st q.category q.keyword q.start_url it) max_rows acc
          q.items) rest

/-- The initial run state over a given pre-existing store. -/
def runAcc0 (store : String → Option AppEntity) : RunAcc :=
  ⟨store, [], [], [], 0, 0, 0, 0⟩

/-- An apprenticeship work item: the listing stub together with the
outcomes its detail fetch and image generation would have. -/
def AppItem : Type :=
  ListedVacancy × Except String (String → String) × Except String String

/-- A job work item. -/
def JobItem : Type :=
  ListedJob × Except String (String → String) × Except String String

/-- `Command.handle` of `scrape_apprenticeship.py`, over explicit queries
and oracle-carrying items. -/
def appHandle (store0 : String → Option AppEntity) (run_id now : Nat)
    (no_images refresh_images image_field : Bool) (max_rows : Nat)
    (queries : List (RunQuery AppItem)) : RunAcc :=
  runQueries (fun it => it.1.vacancy_ref)
    (fun st cat kw su it => appProcessOne st it.1 it.2.1 it.2.2 run_id now
      cat kw su no_images refresh_images image_field)
    max_rows (runAcc0 store0) queries

/-- `Command.handle` of `scrape_job.py`. -/
def jobHandle (store0 : String → Option AppEntity) (run_id now : Nat)
    (no_images image_field : Bool) (max_rows : Nat)
    (queries : List (RunQuery JobItem)) : RunAcc :=
  runQueries (fun it => it.1.job_id)
    (fun st cat sub su it => jobProcessOne st it.1 it.2.1 it.2.2 run_id now
      cat sub su no_images image_field)
    max_rows (runAcc0 store0) queries

/-- The identifiers carried by the terminal audit rows, in append order. -/
def termRefs (logs : List LogEntry) : List String :=
  (logs.filter (fun l => isTerminal l.status)).map (fun l => l.ref)

/-- How many `image_error` rows a given identifier has. -/
def imgCount (r : String) (logs : List LogEntry) : Nat :=
  (logs.filter (fun l => l.status = "image_error" ∧ l.ref = r)).length

theorem termRefs_append (l1 l2 : List LogEntry) :
    termRefs (l1 ++ l2) = termRefs l1 ++ termRefs l2 := by
  simp [termRefs, List.filter_append]

theorem imgCount_append (r : String) (l1 l2 : List LogEntry) :
    imgCount r (l1 ++ l2) = imgCount r l1 + imgCount r l2 := by
  simp [imgCount, List.filter_append]

theorem imgCount_eq_zero_of_other_ref (r s : String)
    (logs : List LogEntry) (hall : ∀ l ∈ logs, l.ref = s) (hne : r ≠ s) :
    imgCount r logs = 0 := by
  unfold imgCount
  rw [List.length_eq_zero, List.filter_eq_nil]
  intro l hl
  simp only [decide_eq_true_eq, not_and]
  intro _
  rw [hall l hl]
  exact fun h => hne h.symm

theorem imgCount_le_filter (r : String) (logs : List LogEntry) :
    imgCount r logs ≤
      (logs.filter (fun l => l.status = "image_error")).length := by
  unfold imgCount
  have h : logs.filter (fun l => l.status = "image_error" ∧ l.ref = r) =
      (logs.filter (fun l => l.status = "image_error")).filter
        (fun l => l.ref = r) := by
    rw [List.filter_filter]
    apply List.filter_congr
    intro l _
    simp [and_comm]
  rw [h]
  exact List.length_filter_le _ _

/-- The per-item contract the inner loop relies on: one terminal row
tagged with the item's identifier, at most one `image_error` row, all
rows tagged with the identifier. -/
def GoodProc {α : Type} (rf : α → String)
    (process : (String → Option AppEntity) → α → ProcOut) : Prop :=
  ∀ (st : String → Option AppEntity) (it : α),
    termRefs (process st it).logs = [rf it] ∧
    ((process st it).logs.filter
      (fun l => l.status = "image_error")).length ≤ 1 ∧
    ∀ l ∈ (process st it).logs, l.ref = rf it

/-- The loop invariant: the terminal rows name exactly the seen
identifiers once each and in order, and each identifier has at most one
`image_error` row (none if it was never processed). -/
def RunInv (acc : RunAcc) : Prop :=
  termRefs acc.logs = acc.seen ∧
  acc.seen.Nodup ∧
  ∀ r, imgCount r acc.logs ≤ if r ∈ acc.seen then 1 else 0

theorem runItems_inv {α : Type} (rf : α → String)
    (process : (String → Option AppEntity) → α → ProcOut)
    (max_rows : Nat) (Hp : GoodProc rf process) :
    ∀ (items : List α) (acc : RunAcc), RunInv acc →
      RunInv (runItems rf process max_rows acc items) ∧
      ((max_rows = 0 ∧ ∀ r, r ∈ acc.seen ↔ r ∈ acc.yielded) →
        ∀ r, r ∈ (runItems rf process max_rows acc items).seen ↔
          r ∈ (runItems rf process max_rows acc items).yielded) := by
  intro items
  induction items with
  | nil => intro acc hinv; exact ⟨hinv, fun hy => hy.2⟩
  | cons item rest ih =>
      intro acc hinv
      rw [runItems]
      by_cases hstop : shouldStop max_rows
          { acc with yielded := acc.yielded ++ [rf item] } = true
      · rw [if_pos hstop]
        refine ⟨hinv, ?_⟩
        rintro ⟨hmr, hy⟩
        subst hmr
        simp [shouldStop] at hstop
      · rw [if_neg hstop]
        by_cases hmem : rf item ∈ acc.seen
        · rw [if_pos hmem]
          have h2 := ih { acc with yielded := acc.yielded ++ [rf item] }
            hinv
          refine ⟨h2.1, ?_⟩
          rintro ⟨hmr, hy⟩
          refine h2.2 ⟨hmr, ?_⟩
          intro r
          constructor
          · intro hr
            exact List.mem_append_left _ ((hy r).mp hr)
          · intro hr
            rcases List.mem_append.mp hr with hr | hr
            · exact (hy r).mpr hr
            · rw [List.mem_singleton.mp hr]; exact hmem
        · rw [if_neg hmem]
          obtain ⟨h1, h2, h3⟩ := Hp acc.store item
          set out := process acc.store item with hout
          have hinv2 : RunInv (tally
              { acc with yielded := acc.yielded ++ [rf item],
                         seen := acc.seen ++ [rf item] } out) := by
            obtain ⟨i1, i2, i3⟩ := hinv
            refine ⟨?_, ?_, ?_⟩
            · show termRefs (acc.logs ++ out.logs) =
                acc.seen ++ [rf item]
              rw [termRefs_append, i1, h1]
            · show (acc.seen ++ [rf item]).Nodup
              simp [List.nodup_append, i2, hmem]
            · intro r
              show imgCount r (acc.logs ++ out.logs) ≤
                if r ∈ acc.seen ++ [rf item] then 1 else 0
              rw [imgCount_append]
              by_cases hr : r = rf item
              · have ha : imgCount r acc.logs = 0 := by
                  have := i3 r
                  rwa [if_neg (by rw [hr]; exact hmem), Nat.le_zero]
                    at this
                have hb : imgCount r out.logs ≤ 1 :=
                  le_trans (imgCount_le_filter r out.logs) h2
                rw [if_pos (by simp [hr])]
                omega
              · have hb : imgCount r out.logs = 0 :=
                  imgCount_eq_zero_of_other_ref r (rf item) out.logs h3 hr
                have ha := i3 r
                have hmm : (r ∈ acc.seen ++ [rf item]) ↔ r ∈ acc.seen := by
                  simp [hr]
                by_cases hrs : r ∈ acc.seen
                · rw [if_pos (hmm.mpr hrs)]
                  rw [if_pos hrs] at ha
                  omega
                · rw [if_neg (fun hc => hrs (hmm.mp hc))]
                  rw [if_neg hrs] at ha
                  omega
          have h4 := ih (tally
            { acc with yielded := acc.yielded ++ [rf item],
                       seen := acc.seen ++ [rf item] } out) hinv2
          refine ⟨h4.1, ?_⟩
          rintro ⟨hmr, hy⟩
          refine h4.2 ⟨hmr, ?_⟩
          intro r
          show r ∈ acc.seen ++ [rf item] ↔ r ∈ acc.yielded ++ [rf item]
          simp only [List.mem_append, List.mem_singleton]
          rw [hy r]

theorem runQueries_inv {α : Type} (rf : α → String)
    (process : (String → Option AppEntity) → String → String → String →
      α → ProcOut)
    (max_rows : Nat)
    (Hp : ∀ cat kw su, GoodProc rf (fun st it => process st cat kw su it)) :
    ∀ (qs : List (RunQuery α)) (acc : RunAcc), RunInv acc →
      RunInv (runQueries rf process max_rows acc qs) ∧
      ((max_rows = 0 ∧ ∀ r, r ∈ acc.seen ↔ r ∈ acc.yielded) →
        ∀ r, r ∈ (runQueries rf process max_rows acc qs).seen ↔
          r ∈ (runQueries rf process max_rows acc qs).yielded) := by
  intro qs
  induction qs with
  | nil => intro acc hinv; exact ⟨hinv, fun hy => hy.2⟩
  | cons q rest ih =>
      intro acc hinv
      rw [runQueries]
      by_cases hstop : shouldStop max_rows acc = true
      · rw [if_pos hstop]
        refine ⟨hinv, ?_⟩
        rintro ⟨hmr, hy⟩
        subst hmr
        simp [shouldStop] at hstop
      · rw [if_neg hstop]
        have hi := runItems_inv rf
          (fun st it => process st q.category q.keyword q.start_url it)
          max_rows (Hp q.category q.keyword q.start_url) q.items acc hinv
        have h4 := ih _ hi.1
        refine ⟨h4.1, ?_⟩
        rintro ⟨hmr, hy⟩
        exact h4.2 ⟨hmr, hi.2 ⟨hmr, hy⟩⟩

theorem appGoodProc (run_id now : Nat)
    (no_images refresh_images image_field : Bool) :
    ∀ cat kw su, GoodProc (fun it : AppItem => it.1.vacancy_ref)
      (fun st it => appProcessOne st it.1 it.2.1 it.2.2 run_id now cat kw
        su no_images refresh_images image_field) := by
  intro cat kw su st it
  have h := appProcessOne_logs st it.1 it.2.1 it.2.2 run_id now cat kw su
    no_images refresh_images image_field
  exact ⟨h.1, h.2.1, h.2.2⟩

theorem jobGoodProc (run_id now : Nat) (no_images image_field : Bool) :
    ∀ cat sub su, GoodProc (fun it : JobItem => it.1.job_id)
      (fun st it => jobProcessOne st it.1 it.2.1 it.2.2 run_id now cat sub
        su no_images image_field) := by
  intro cat sub su st it
  have h := jobProcessOne_logs st it.1 it.2.1 it.2.2 run_id now cat sub su
    no_images image_field
  exact ⟨h.1, h.2.1, h.2.2⟩

theorem runInv_runAcc0 (store0 : String → Option AppEntity) :
    RunInv (runAcc0 store0) := by
  refine ⟨rfl, List.nodup_nil, ?_⟩
  intro r
  simp [imgCount, runAcc0]

theorem appHandle_inv (store0 : String → Option AppEntity)
    (run_id now : Nat) (no_images refresh_images image_field : Bool)
    (max_rows : Nat) (queries : List (RunQuery AppItem)) :
    RunInv (appHandle store0 run_id now no_images refresh_images
      image_field max_rows queries) ∧
    (max_rows = 0 →
      ∀ r, r ∈ (appHandle store0 run_id now no_images refresh_images
          image_field max_rows queries).seen ↔
        r ∈ (appHandle store0 run_id now no_images refresh_images
          image_field max_rows queries).yielded) := by
  have h := runQueries_inv (fun it : AppItem => it.1.vacancy_ref)
    (fun st cat kw su it => appProcessOne st it.1 it.2.1 it.2.2 run_id now
      cat kw su no_images refresh_images image_field)
    max_rows (appGoodProc run_id now no_images refresh_images image_field)
    queries (runAcc0 store0) (runInv_runAcc0 store0)
  exact ⟨h.1, fun hmr => h.2 ⟨hmr, by intro r; simp [runAcc0]⟩⟩

theorem jobHandle_inv (store0 : String → Option AppEntity)
    (run_id now : Nat) (no_images image_field : Bool) (max_rows : Nat)
    (queries : List (RunQuery JobItem)) :
    RunInv (jobHandle store0 run_id now no_images image_field max_rows
      queries) ∧
    (max_rows = 0 →
      ∀ r, r ∈ (jobHandle store0 run_id now no_images image_field max_rows
          queries).seen ↔
        r ∈ (jobHandle store0 run_id now no_images image_field max_rows
          queries).yielded) := by
  have h := runQueries_inv (fun it : JobItem => it.1.job_id)
    (fun st cat sub su it => jobProcessOne st it.1 it.2.1 it.2.2 run_id now
      cat sub su no_images image_field)
    max_rows (jobGoodProc run_id now no_images image_field)
    queries (runAcc0 store0) (runInv_runAcc0 store0)
  exact ⟨h.1, fun hmr => h.2 ⟨hmr, by intro r; simp [runAcc0]⟩⟩

theorem count_termRefs_of_inv (acc : RunAcc) (hinv : RunInv acc)
    (hlink : ∀ r, r ∈ acc.seen ↔ r ∈ acc.yielded) (r : String) :
    (termRefs acc.logs).count r =
      (if r ∈ acc.yielded then 1 else 0) ∧
    imgCount r acc.logs ≤ 1 := by
  obtain ⟨i1, i2, i3⟩ := hinv
  constructor
  · rw [i1]
    by_cases hm : r ∈ acc.seen
    · rw [if_pos ((hlink r).mp hm)]
      exact List.count_eq_one_of_mem i2 hm
    · rw [if_neg (fun hc => hm ((hlink r).mpr hc))]
      exact List.count_eq_zero_of_not_mem hm
  · refine le_trans (i3 r) ?_
    by_cases hm : r ∈ acc.seen
    · rw [if_pos hm]
    · rw [if_neg hm]; omega

/-! ## Claim C7 -/

/-- **C7** (amended): with no row ceiling, each *distinct* identifier that
a crawl yields gets exactly one terminal audit row (`created` / `updated`
/ `skipped` / `error`) for the whole run, identifiers never yielded get
none, and every identifier has at most one `image_error` row; the log is
only ever appended to (it grows by list append at each step).  Per yielded
*item* the claim fails: a re-yielded duplicate identifier and an item
yielded after the `--max-rows` ceiling is hit produce no terminal row —
see the counterexample. -/
theorem C7_terminal_log_per_ref :
    (∀ (store0 : String → Option AppEntity) (run_id now : Nat)
        (no_images refresh_images image_field : Bool)
        (queries : List (RunQuery AppItem)) (r : String),
      (termRefs (appHandle store0 run_id now no_images refresh_images
          image_field 0 queries).logs).count r =
        (if r ∈ (appHandle store0 run_id now no_images refresh_images
            image_field 0 queries).yielded then 1 else 0) ∧
      imgCount r (appHandle store0 run_id now no_images refresh_images
        image_field 0 queries).logs ≤ 1)
    ∧
    (∀ (store0 : String → Option AppEntity) (run_id now : Nat)
        (no_images image_field : Bool)
        (queries : List (RunQuery JobItem)) (r : String),
      (termRefs (jobHandle store0 run_id now no_images image_field 0
          queries).logs).count r =
        (if r ∈ (jobHandle store0 run_id now no_images image_field 0
            queries).yielded then 1 else 0) ∧
      imgCount r (jobHandle store0 run_id now no_images image_field 0
        queries).logs ≤ 1) := by
  constructor
  · intro store0 run_id now ni ri imf queries r
    have h := appHandle_inv store0 run_id now ni ri imf 0 queries
    exact count_termRefs_of_inv _ h.1 (h.2 rfl) r
  · intro store0 run_id now ni imf queries r
    have h := jobHandle_inv store0 run_id now ni imf 0 queries
    exact count_termRefs_of_inv _ h.1 (h.2 rfl) r

/-- Two distinct job listings for the row-ceiling counterexample. -/
def fxC7Items : List JobItem :=
  [(⟨"A", "http://uA", "TA", "", "", "", "", "", "", "", ""⟩,
    Except.ok (fun _ => ""), Except.ok ""),
   (⟨"B", "http://uB", "TB", "", "", "", "", "", "", "", ""⟩,
    Except.ok (fun _ => ""), Except.ok "")]

/-- A job run with `--max-rows 1` over those two listings. -/
def fxC7Acc : RunAcc :=
  jobHandle (fun _ => none) 1 2 true true 1 [⟨"Cat", "Sub", "U", fxC7Items⟩]

/-- **C7 counterexample**: the crawl yields `"B"` (the loop body runs for
it), but the `--max-rows 1` ceiling — reached by creating `"A"` — breaks
out before any processing, so `"B"` gets no terminal audit row at all,
against the claim's "every ListedItem yielded … exactly one terminal
entry". -/
theorem C7_counterexample :
    fxC7Acc.yielded = ["A", "B"] ∧ termRefs fxC7Acc.logs = ["A"] := by
  constructor <;> decide

/-! ## Claim C10 -/

/-- **C10**: run-wide deduplication.  In both commands the terminal audit
rows — one per ingested identifier — carry pairwise-distinct identifiers,
whatever the row ceiling: no identifier is ever ingested twice in one run,
because the single `seen_refs` / `seen_job_ids` set spans every
category/keyword (resp. category/subcategory) query and the membership
test fires before any detail fetch, merge, or upsert.  With no row
ceiling, the ingested identifiers are exactly the distinct identifiers
the crawls yielded, across all queries. -/
theorem C10_runwide_dedup :
    (∀ (store0 : String → Option AppEntity) (run_id now : Nat)
        (no_images refresh_images image_field : Bool) (max_rows : Nat)
        (queries : List (RunQuery AppItem)),
      (termRefs (appHandle store0 run_id now no_images refresh_images
          image_field max_rows queries).logs).Nodup ∧
      (max_rows = 0 →
        ∀ r, r ∈ termRefs (appHandle store0 run_id now no_images
            refresh_images image_field max_rows queries).logs ↔
          r ∈ (appHandle store0 run_id now no_images refresh_images
            image_field max_rows queries).yielded))
    ∧
    (∀ (store0 : String → Option AppEntity) (run_id now : Nat)
        (no_images image_field : Bool) (max_rows : Nat)
        (queries : List (RunQuery JobItem)),
      (termRefs (jobHandle store0 run_id now no_images image_field
          max_rows queries).logs).Nodup ∧
      (max_rows = 0 →
        ∀ r, r ∈ termRefs (jobHandle store0 run_id now no_images
            image_field max_rows queries).logs ↔
          r ∈ (jobHandle store0 run_id now no_images image_field max_rows
            queries).yielded)) := by
  constructor
  · intro store0 run_id now ni ri imf max_rows queries
    have h := appHandle_inv store0 run_id now ni ri imf max_rows queries
    obtain ⟨⟨i1, i2, _⟩, hlink⟩ := h
    refine ⟨by rw [i1]; exact i2, ?_⟩
    intro hmr r
    rw [i1]
    exact hlink hmr r
  · intro store0 run_id now ni imf max_rows queries
    have h := jobHandle_inv store0 run_id now ni imf max_rows queries
    obtain ⟨⟨i1, i2, _⟩, hlink⟩ := h
    refine ⟨by rw [i1]; exact i2, ?_⟩
    intro hmr r
    rw [i1]
    exact hlink hmr r

/-- Two apprenticeship queries whose crawls both yield the reference
`"A"` (the second also yields `"B"`). -/
def fxC10Queries : List (RunQuery AppItem) :=
  [⟨"C1", "K1", "U1",
    [(⟨"A", "http://u1", "T", "", "", "", "", "", "", ""⟩,
      Except.ok (fun _ => ""), Except.ok "")]⟩,
   ⟨"C2", "K2", "U2",
    [(⟨"A", "http://u2", "T", "", "", "", "", "", "", ""⟩,
      Except.ok (fun _ => ""), Except.ok ""),
     (⟨"B", "http://u3", "T", "", "", "", "", "", "", ""⟩,
      Except.ok (fun _ => ""), Except.ok "")]⟩]

/-- The apprenticeship run over those two queries, no row ceiling. -/
def fxC10Acc : RunAcc :=
  appHandle (fun _ => none) 1 2 true false true 0 fxC10Queries

/-- **C10 witness**: `C10_runwide_dedup` at a concrete run whose two
queries both yield `"A"`: the terminal rows are duplicate-free and their
identifiers are exactly the yielded ones — concretely the run yields
`["A", "A", "B"]` but ingests `["A", "B"]`, the cross-query duplicate
being dropped. -/
theorem C10_witness :
    (termRefs fxC10Acc.logs).Nodup ∧
    ("A" ∈ termRefs fxC10Acc.logs ↔ "A" ∈ fxC10Acc.yielded) ∧
    fxC10Acc.yielded = ["A", "A", "B"] ∧
    termRefs fxC10Acc.logs = ["A", "B"] := by
  refine ⟨(C10_runwide_dedup.1 (fun _ => none) 1 2 true false true 0
      fxC10Queries).1,
    (C10_runwide_dedup.1 (fun _ => none) 1 2 true false true 0
      fxC10Queries).2 rfl "A", ?_, ?_⟩ <;> decide
